import Mathlib

/-!
# AudioPrism backend: inference cache and history ledger

A shallow embedding of `node_server/controllers/inferenceController.js`
(`persistUserOutput`, `runInference`, `getUserResults`) together with the
`ProcessedStem` collection of `node_server/models/ProcessedStem.js`.

Modelling conventions

* The two MongoDB collections are explicit state: a list of `ProcessedStem`
  documents and a list of `User` documents. Store round trips are total; the
  only fallible collaborator is the compute backend (the `axios.post`).
* `crypto.createHash("sha256")` and `Date.prototype.toLocaleString` are library
  code and are taken as parameters (`Env`).
* The JavaScript numbers of `getUserResults` are `NaN`, the two infinities and
  the integers a double can hold (`JSNum`). A mathematical integer becomes a
  number by rounding to the nearest double, ties to even, and to an infinity
  from `2^1024 - 2^970` on (`toNumber`); sums and products round the same way.
  The two zeros are not told apart: both are falsy and both index position 0.
* Optional JSON fields (`response.data.stems`, `o.stems`, ...) are `Option`s and
  the JavaScript truthiness tests on them are spelled out.
* The temporary upload file and its removal in the `finally` block are not part
  of the state.
-/

namespace AudioPrism

/-! ## Data model -/

/-- One element of `stemSchema`: `{ name, url }`. -/
structure Stem where
  name : String
  url : String
deriving DecidableEq, Repr

/-- A document of the `ProcessedStem` collection (`processedStemSchema`). The
array fields have the schema default `[]`, so a hydrated document always
carries both lists. -/
structure ProcessedStem where
  cacheId : String
  inputName : String
  stems : List Stem
  outputUrls : List String
  createdAt : Nat
deriving DecidableEq, Repr

/-- Modelled from the spec: the element type of `user.savedOutputs`, whose
schema lives in `models/User.js` (not part of the sources at hand). The fields
are the ones `persistUserOutput` writes and `getUserResults` reads;
`createdAt` is stamped when the record is pushed. `getUserResults` reads the
documents with `.lean()`, so `stems` and `outputUrls` may be absent on
records written before those fields existed. -/
structure SavedOutput where
  inputName : String
  cacheId : String
  outputUrls : Option (List String)
  stems : Option (List Stem)
  createdAt : Nat
deriving DecidableEq, Repr

/-- Modelled from the spec: a document of the `User` collection
(`models/User.js`), reduced to its id and its `savedOutputs`. -/
structure User where
  id : String
  savedOutputs : List SavedOutput
deriving DecidableEq, Repr

/-- The persistent state: both collections. -/
structure Store where
  processedStems : List ProcessedStem
  users : List User
deriving DecidableEq, Repr

/-- The store with no documents at all. -/
def Store.empty : Store := ⟨[], []⟩

/-- Library functions the controller calls and the clock. -/
structure Env where
  /-- The hex digest `computeFileHash` resolves to, as a function of the bytes. -/
  computeFileHash : List Nat → String
  /-- Rendering of `new Date(t).toLocaleString()`. -/
  toLocaleString : Nat → String
  /-- Value of `Date.now()` when defaults are filled in. -/
  now : Nat

/-! ## Result normalisation -/

/-- The arrow function `(url, idx) => ({ name: "Stem " + (idx + 1), url })`
that all three fallbacks map over a list of locations. -/
def stemOfUrl (idx : Nat) (url : String) : Stem :=
  { name := "Stem " ++ toString (idx + 1), url := url }

/-- JavaScript `xs.map((url, idx) => ({ name, url }))` with the synthetic name. -/
def positionalStems (urls : List String) : List Stem :=
  urls.mapIdx stemOfUrl

/-- The body `response.data` of a successful backend answer; every field is
optional on the wire. -/
structure BackendData where
  cache_id : Option String
  status : Option String
  files : Option (List String)
  stems : Option (List Stem)
deriving DecidableEq, Repr

/-- Lines 96-99 of `runInference`:
`responseFiles = files || []` and
`(stems && stems.length) ? stems : responseFiles.map(...)`. -/
def normalizeStems (stems : Option (List Stem)) (files : Option (List String)) :
    List Stem :=
  let responseFiles := files.getD []
  match stems with
  | some (s :: rest) => s :: rest
  | _ => positionalStems responseFiles

/-- Lines 60-62 of `runInference`, the fallback on a cache hit:
`(cachedStem.stems && cachedStem.stems.length) ? cachedStem.stems
  : cachedStem.outputUrls.map(...)`. -/
def cachedStemsOf (cachedStem : ProcessedStem) : List Stem :=
  if cachedStem.stems.length ≠ 0 then cachedStem.stems
  else positionalStems cachedStem.outputUrls

/-- Lines 161-163 of `getUserResults`, the fallback per served record:
`(o.stems && o.stems.length) ? o.stems : (o.outputUrls || []).map(...)`. -/
def servedStemsOf (o : SavedOutput) : List Stem :=
  match o.stems with
  | some (s :: rest) => s :: rest
  | _ => positionalStems (o.outputUrls.getD [])

/-! ## The two collections -/

/-- Mongoose `ProcessedStem.findOne({ cacheId })`: the first document of the
collection whose `cacheId` equals the given one, if any. -/
def findOne (coll : List ProcessedStem) (cacheId : String) : Option ProcessedStem :=
  coll.find? (fun d => d.cacheId == cacheId)

/-- The update half of `findOneAndUpdate`: the first document matching the
filter receives the four fields of the update object; its `createdAt` stays. -/
def updateFirst (coll : List ProcessedStem) (cacheId inputName : String)
    (outputUrls : List String) (stems : List Stem) : List ProcessedStem :=
  match coll with
  | [] => []
  | d :: rest =>
    if d.cacheId == cacheId then
      { d with cacheId := cacheId, inputName := inputName,
               outputUrls := outputUrls, stems := stems } :: rest
    else d :: updateFirst rest cacheId inputName outputUrls stems

/-- Lines 101-110 of `runInference`:
`ProcessedStem.findOneAndUpdate({ cacheId }, { cacheId, inputName, outputUrls,
stems }, { upsert: true, new: true, setDefaultsOnInsert: true })`.
A matching document is updated in place; otherwise a new document is inserted
with the schema default `createdAt = Date.now()`. -/
def findOneAndUpdate (env : Env) (coll : List ProcessedStem) (cacheId inputName : String)
    (outputUrls : List String) (stems : List Stem) : List ProcessedStem :=
  match findOne coll cacheId with
  | some _ => updateFirst coll cacheId inputName outputUrls stems
  | none =>
    coll ++ [{ cacheId := cacheId, inputName := inputName, stems := stems,
               outputUrls := outputUrls, createdAt := env.now }]

/-- Mongoose `User.findById(userId)`. -/
def findById (users : List User) (userId : String) : Option User :=
  users.find? (fun u => u.id == userId)

/-- Mongoose `user.save()`: the stored document with the id of `user` is
replaced by `user`. -/
def saveUser (users : List User) (user : User) : List User :=
  match users with
  | [] => []
  | u :: rest => if u.id == user.id then user :: rest else u :: saveUser rest user

/-- Lines 27-33: the object pushed onto `user.savedOutputs`, with
`outputUrls = stems.map(stem => stem.url)`; the subdocument default stamps
`createdAt`. -/
def newSavedOutput (env : Env) (inputName cacheId : String) (stems : List Stem) :
    SavedOutput :=
  let outputUrls := stems.map (fun stem => stem.url)
  { inputName := inputName, cacheId := cacheId, outputUrls := some outputUrls,
    stems := some stems, createdAt := env.now }

/-- Lines 20-35, `persistUserOutput(userId, inputName, cacheId, stems)`:
returns early when the user is not found, otherwise pushes one record and saves
the user. -/
def persistUserOutput (env : Env) (users : List User) (userId inputName cacheId : String)
    (stems : List Stem) : List User :=
  match findById users userId with
  | none => users
  | some user =>
    saveUser users
      { user with savedOutputs :=
          user.savedOutputs ++ [newSavedOutput env inputName cacheId stems] }

/-! ## `runInference` -/

/-- The multer file object `req.file`: where it was stored, the client file
name, and the bytes found at `path`. -/
structure UploadedFile where
  path : String
  originalname : String
  content : List Nat
deriving DecidableEq, Repr

/-- What `runInference` reads from `req`: `req.file` and `req.user.id`. -/
structure InferenceRequest where
  file : Option UploadedFile
  userId : String
deriving DecidableEq, Repr

/-- The multipart form posted to `FASTAPI_URL/infer`. -/
structure BackendRequest where
  file : List Nat
  filename : String
  cache_id : String
deriving DecidableEq, Repr

/-- The compute backend as seen through `axios.post`: either a 2xx answer with
its body, or a rejection carrying `err.response?.data || err.message`. -/
abbrev Backend := BackendRequest → Except String BackendData

/-- The JSON body of a 200 answer of `runInference`. -/
structure InferenceBody where
  status : String
  cacheId : String
  outputs : List String
  stems : List Stem
deriving DecidableEq, Repr

/-- The HTTP answers of `runInference`. -/
inductive InferenceResponse where
  | ok (body : InferenceBody)
  | badRequest (error : String)
  | serverError (status : String) (message : String)
deriving DecidableEq, Repr

/-- JavaScript `s || d` for an optional string: `undefined` and `""` are falsy. -/
def strOr (s : Option String) (d : String) : String :=
  match s with
  | some v => if v == "" then d else v
  | none => d

/-- Lines 47-131, `runInference(req, res)`: the answer sent and the store
afterwards. -/
def runInference (env : Env) (backend : Backend) (st : Store) (req : InferenceRequest) :
    InferenceResponse × Store :=
  match req.file with
  | none => (.badRequest "No file uploaded", st)
  | some audioFile =>
    let cacheId := env.computeFileHash audioFile.content
    match findOne st.processedStems cacheId with
    | some cachedStem =>
      let cachedStems := cachedStemsOf cachedStem
      let users := persistUserOutput env st.users req.userId audioFile.originalname
        cacheId cachedStems
      (.ok { status := "cached", cacheId := cacheId,
             outputs := cachedStems.map (fun stem => stem.url), stems := cachedStems },
       { st with users := users })
    | none =>
      match backend { file := audioFile.content, filename := audioFile.originalname,
                      cache_id := cacheId } with
      | .error message => (.serverError "error" message, st)
      | .ok data =>
        let resolvedCacheId := strOr data.cache_id cacheId
        let normalizedStems := normalizeStems data.stems data.files
        let coll := findOneAndUpdate env st.processedStems resolvedCacheId
          audioFile.originalname (normalizedStems.map (fun stem => stem.url)) normalizedStems
        let users := persistUserOutput env st.users req.userId audioFile.originalname
          resolvedCacheId normalizedStems
        (.ok { status := strOr data.status "success", cacheId := resolvedCacheId,
               outputs := normalizedStems.map (fun stem => stem.url),
               stems := normalizedStems },
         { processedStems := coll, users := users })

/-! ## `getUserResults` -/

/-- The ECMAScript `WhiteSpace` and `LineTerminator` code points, which
`parseInt` skips at the start of its input. -/
def isJsWhiteSpace (c : Char) : Bool :=
  let n := c.toNat
  n == 0x09 || n == 0x0A || n == 0x0B || n == 0x0C || n == 0x0D || n == 0x20 ||
  n == 0xA0 || n == 0x1680 || (0x2000 ≤ n && n ≤ 0x200A) || n == 0x2028 ||
  n == 0x2029 || n == 0x202F || n == 0x205F || n == 0x3000 || n == 0xFEFF

/-- The value of `c` as a digit in the given radix, if it is one. -/
def digitValue (radix : Nat) (c : Char) : Option Nat :=
  let n := c.toNat
  let v : Option Nat :=
    if 48 ≤ n ∧ n ≤ 57 then some (n - 48)
    else if 97 ≤ n ∧ n ≤ 122 then some (n - 97 + 10)
    else if 65 ≤ n ∧ n ≤ 90 then some (n - 65 + 10)
    else none
  v.filter (fun d => d < radix)

/-- The longest run of radix digits at the start of `cs`, as digit values. -/
def leadingDigits (radix : Nat) (cs : List Char) : List Nat :=
  match cs with
  | [] => []
  | c :: rest =>
    match digitValue radix c with
    | some d => d :: leadingDigits radix rest
    | none => []

/-- The number written by a list of digit values, most significant first. -/
def digitsValue (radix : Nat) (ds : List Nat) : Nat :=
  ds.foldl (fun acc d => acc * radix + d) 0

/-- Steps 3-4 of `parseInt`: the sign and the input after an optional sign. -/
def splitSign (cs : List Char) : Int × List Char :=
  match cs with
  | '-' :: rest => (-1, rest)
  | '+' :: rest => (1, rest)
  | _ => (1, cs)

/-- Step 6 of `parseInt` without a radix argument: a leading `0x` or `0X`
selects radix 16 and is removed. -/
def splitRadix (cs : List Char) : Nat × List Char :=
  match cs with
  | '0' :: 'x' :: rest => (16, rest)
  | '0' :: 'X' :: rest => (16, rest)
  | _ => (10, cs)

/-- Steps 1-9 of ECMAScript `parseInt(string)` with one argument: the
mathematical integer the input denotes, `none` when there is no digit. -/
def parseMathInt (input : String) : Option Int :=
  let trimmed := input.toList.dropWhile isJsWhiteSpace
  let (sign, unsigned) := splitSign trimmed
  let (radix, body) := splitRadix unsigned
  match leadingDigits radix body with
  | [] => none
  | d :: ds => some (sign * (digitsValue radix (d :: ds) : Int))

/-- The characters `0` to `9`, the ones a decimal rendering is made of. -/
def IsDecDigit (c : Char) : Prop := 48 ≤ c.toNat ∧ c.toNat ≤ 57

/-- A JavaScript number as `getUserResults` can meet one: `NaN`, plus or minus
`Infinity`, or a finite integer. -/
inductive JSNum where
  | nan
  | inf (negative : Bool)
  | fin (v : Int)
deriving DecidableEq, Repr

/-- The least magnitude that rounds to `Infinity`: halfway between the largest
double `(2^53 - 1) * 2^971` and `2^1024`. -/
def doubleOverflow : Nat := 2 ^ 1024 - 2 ^ 970

/-- The double nearest to a natural number, ties to the even significand;
`none` when that is `Infinity`. Below `2^53` every integer is a double; from
there on a double is a 53-bit significand times a power of two. -/
def roundToDouble (m : Nat) : Option Nat :=
  if m < 2 ^ 53 then some m
  else if doubleOverflow ≤ m then none
  else
    let q := 2 ^ (Nat.log2 m - 52)
    let lo := m / q
    let r := m % q
    let sig :=
      if 2 * r < q then lo
      else if q < 2 * r then lo + 1
      else if lo % 2 = 0 then lo else lo + 1
    some (sig * q)

/-- The Number value for a mathematical integer. -/
def toNumber (x : Int) : JSNum :=
  match roundToDouble x.natAbs with
  | none => .inf (decide (x < 0))
  | some v => .fin (if x < 0 then -(v : Int) else (v : Int))

/-- Unary minus. -/
def JSNum.neg (x : JSNum) : JSNum :=
  match x with
  | .nan => .nan
  | .inf negative => .inf (!negative)
  | .fin v => .fin (-v)

/-- The JavaScript `+` on numbers: opposite infinities give `NaN`, finite
operands give the rounded exact sum. -/
def JSNum.add (x y : JSNum) : JSNum :=
  match x, y with
  | .nan, _ => .nan
  | _, .nan => .nan
  | .inf a, .inf b => if a = b then .inf a else .nan
  | .inf a, .fin _ => .inf a
  | .fin _, .inf b => .inf b
  | .fin a, .fin b => toNumber (a + b)

/-- The JavaScript binary `-` on numbers. -/
def JSNum.sub (x y : JSNum) : JSNum := x.add y.neg

/-- The JavaScript `*` on numbers: zero times an infinity is `NaN`, finite
operands give the rounded exact product. -/
def JSNum.mul (x y : JSNum) : JSNum :=
  match x, y with
  | .nan, _ => .nan
  | _, .nan => .nan
  | .inf a, .inf b => .inf (a != b)
  | .inf a, .fin v => if v = 0 then .nan else .inf (a != decide (v < 0))
  | .fin v, .inf b => if v = 0 then .nan else .inf (decide (v < 0) != b)
  | .fin a, .fin b => toNumber (a * b)

/-- ECMAScript `parseInt(string)` with one argument: `NaN` without a digit,
otherwise the Number value for the integer read. -/
def parseInt (input : String) : JSNum :=
  match parseMathInt input with
  | none => .nan
  | some v => toNumber v

/-- JavaScript `x || d` for a number: `NaN` and `0` are falsy. -/
def numOr (x : JSNum) (d : JSNum) : JSNum :=
  match x with
  | .nan => d
  | .inf negative => .inf negative
  | .fin v => if v = 0 then d else .fin v

/-- A query parameter handed to `parseInt`: a missing one is `undefined`,
which `parseInt` first turns into the string `"undefined"`. -/
def queryArg (q : Option String) : String := q.getD "undefined"

/-- How `Array.prototype.slice` turns one argument into a position of an array
of length `len`: `ToIntegerOrInfinity` (`NaN` is 0), then a negative value
counts from the end, and the result is clamped to `0 .. len`. -/
def clampIndex (len : Nat) (x : JSNum) : Nat :=
  match x with
  | .nan => 0
  | .inf true => 0
  | .inf false => len
  | .fin v => if v < 0 then (max ((len : Int) + v) 0).toNat else (min v (len : Int)).toNat

/-- ECMAScript `Array.prototype.slice(start, end)`: the elements from the
clamped start up to but excluding the clamped end. -/
def jsSlice {α : Type} (xs : List α) (start stop : JSNum) : List α :=
  let k := clampIndex xs.length start
  let final := clampIndex xs.length stop
  (xs.drop k).take (final - k)

/-- The number `x` is `Infinity` or a finite integer not below `c`. -/
def AtLeast (c : Nat) (x : JSNum) : Prop :=
  x = .inf false ∨ ∃ v : Nat, c ≤ v ∧ x = .fin (v : Int)

/-- The comparator `(a, b) => new Date(b.createdAt) - new Date(a.createdAt)`
read as "a may stand before b". -/
def newerFirst (a b : SavedOutput) : Prop := b.createdAt ≤ a.createdAt

instance : DecidableRel newerFirst := fun a b =>
  inferInstanceAs (Decidable (b.createdAt ≤ a.createdAt))

instance : IsTotal SavedOutput newerFirst :=
  ⟨fun a b => Nat.le_total b.createdAt a.createdAt⟩

instance : IsTrans SavedOutput newerFirst :=
  ⟨fun _ _ _ hab hbc => Nat.le_trans hbc hab⟩

/-- Lines 146-148: `[...user.savedOutputs].sort(comparator)`, a stable sort. -/
def sortSavedOutputs (savedOutputs : List SavedOutput) : List SavedOutput :=
  savedOutputs.insertionSort newerFirst

/-- One element of `results` in the answer of `getUserResults`. -/
structure ResultItem where
  inputName : String
  cacheId : String
  createdAt : String
  outputUrls : Option (List String)
  stems : List Stem
deriving DecidableEq, Repr

/-- Lines 156-164: the object each paginated record is mapped to. -/
def resultItemOf (env : Env) (o : SavedOutput) : ResultItem :=
  { inputName := o.inputName, cacheId := o.cacheId,
    createdAt := env.toLocaleString o.createdAt,
    outputUrls := o.outputUrls, stems := servedStemsOf o }

/-- What `getUserResults` reads from `req.query`. -/
structure ResultsQuery where
  limit : Option String
  page : Option String
deriving DecidableEq, Repr

/-- The JSON body of a 200 answer of `getUserResults`. -/
structure ResultsBody where
  total : Nat
  page : JSNum
  limit : JSNum
  results : List ResultItem
deriving DecidableEq, Repr

/-- The HTTP answers of `getUserResults`. -/
inductive ResultsResponse where
  | ok (body : ResultsBody)
  | notFound (message : String)
deriving DecidableEq, Repr

/-- Lines 133-170, `getUserResults(req, res)`. -/
def getUserResults (env : Env) (st : Store) (userId : String) (query : ResultsQuery) :
    ResultsResponse :=
  let limit := numOr (parseInt (queryArg query.limit)) (.fin 10)
  let page := numOr (parseInt (queryArg query.page)) (.fin 1)
  let skip := (page.sub (.fin 1)).mul limit
  match findById st.users userId with
  | none => .notFound "User not found"
  | some user =>
    let sorted := sortSavedOutputs user.savedOutputs
    let paginated := jsSlice sorted skip (skip.add limit)
    .ok { total := user.savedOutputs.length, page := page, limit := limit,
          results := paginated.map (resultItemOf env) }

/-! ## Submissions in sequence -/

/-- The same request handled twice in a row: first at the time of `env` with
backend `b1`, then at time `later` with backend `b2`. The result is the second
answer and the store after both. -/
def resubmit (env : Env) (later : Nat) (b1 b2 : Backend) (st : Store)
    (req : InferenceRequest) : InferenceResponse × Store :=
  runInference { env with now := later } b2 (runInference env b1 st req).2 req

/-- The documents of the cache collection stored under a given `cacheId`. -/
def cacheEntriesFor (coll : List ProcessedStem) (cacheId : String) : List ProcessedStem :=
  coll.filter (fun e => e.cacheId == cacheId)

/-- The referential property of a store: every history record of every user
names the `cacheId` of some document of the cache collection. -/
def HistoryReferencesCache (st : Store) : Prop :=
  ∀ u ∈ st.users, ∀ r ∈ u.savedOutputs, ∃ e ∈ st.processedStems, e.cacheId = r.cacheId

/-- One submission: `st2` is the store `runInference` leaves behind when it
handles some request in `st`, under any environment and any backend. -/
def SubmissionStep (st st2 : Store) : Prop :=
  ∃ (env : Env) (backend : Backend) (req : InferenceRequest),
    (runInference env backend st req).2 = st2

/-- Stores reachable by any number of submissions. -/
def Reachable (st st2 : Store) : Prop := Relation.ReflTransGen SubmissionStep st st2

/-! ## Fixtures used to evaluate the model on concrete inputs -/

/-- A toy digest standing in for SHA-256 in the concrete evaluations. -/
def demoHash (bytes : List Nat) : String :=
  "h" ++ toString (bytes.foldl (fun acc b => (31 * acc + b) % 65521) 7)

/-- A concrete environment: toy digest, timestamps rendered in decimal. -/
def demoEnv : Env := { computeFileHash := demoHash, toLocaleString := toString, now := 100 }

/-- An upload of three bytes named `song.wav`. -/
def demoFile : UploadedFile := { path := "uploads/t1", originalname := "song.wav",
                                 content := [1, 2, 3] }

/-- The request of user `u1` uploading `demoFile`. -/
def demoRequest : InferenceRequest := { file := some demoFile, userId := "u1" }

/-- A backend that answers with two bare locations and nothing else. -/
def filesBackend : Backend := fun _ =>
  .ok { cache_id := none, status := none, files := some ["x", "y"], stems := none }

/-- A backend that is unreachable. -/
def downBackend : Backend := fun _ => .error "connect ECONNREFUSED"

/-- A backend that reports its own status word. -/
def queuedBackend : Backend := fun _ =>
  .ok { cache_id := none, status := some "queued", files := some ["x"], stems := none }

/-- A backend that files the result under an id of its own. -/
def renamingBackend : Backend := fun _ =>
  .ok { cache_id := some "job-42", status := none, files := some ["x"], stems := none }

/-- A cache entry for `demoFile` in the older layout: locations only. -/
def legacyEntry : ProcessedStem :=
  { cacheId := "h13000", inputName := "old.wav", stems := [], outputUrls := ["x", "y"],
    createdAt := 5 }

/-- A store where `demoFile` is already cached and user `u1` exists. -/
def hitStore : Store := { processedStems := [legacyEntry], users := [⟨"u1", []⟩] }

/-- A store with an empty cache where user `u1` exists. -/
def missStore : Store := { processedStems := [], users := [⟨"u1", []⟩] }

/-- The body of a 200 answer of `getUserResults`, if it is one. -/
def okBody (r : ResultsResponse) : Option ResultsBody :=
  match r with
  | .ok body => some body
  | _ => none

/-- A history record created at time `t`, for the concrete evaluations. -/
def demoRecord (t : Nat) : SavedOutput :=
  { inputName := "song.wav", cacheId := "h13000", outputUrls := some ["x"],
    stems := some [⟨"Vocals", "x"⟩], createdAt := t }

/-- A store whose user `u1` has `n` history records, created at times
`1, ..., n` and stored in that order. -/
def historyStore (n : Nat) : Store :=
  { processedStems := [legacyEntry],
    users := [⟨"u1", (List.range n).map (fun i => demoRecord (i + 1))⟩] }

/-- The decimal numeral `1` followed by 400 zeros, a limit far beyond the
largest double. -/
def hugeLimit : String := String.mk ('1' :: List.replicate 400 '0')

/-- A history record in the older layout: no parts, two locations. -/
def legacyRecord : SavedOutput :=
  { inputName := "old.wav", cacheId := "h13000", outputUrls := some ["x", "y"],
    stems := some [], createdAt := 7 }

/-- A store whose user `u1` has the single history record `legacyRecord`. -/
def legacyHistoryStore : Store :=
  { processedStems := [legacyEntry], users := [⟨"u1", [legacyRecord]⟩] }

/-- The `stems` of a 200 answer of `runInference`, if it is one. -/
def okStems (r : InferenceResponse) : Option (List Stem) :=
  match r with
  | .ok body => some body.stems
  | _ => none

/-- The `status` of a 200 answer of `runInference`, if it is one. -/
def okStatus (r : InferenceResponse) : Option String :=
  match r with
  | .ok body => some body.status
  | _ => none

/-! ## Basic facts about the normaliser -/

theorem positionalStems_length (urls : List String) :
    (positionalStems urls).length = urls.length := by
  simp [positionalStems]

theorem positionalStems_getElem? (urls : List String) (i : Nat) :
    (positionalStems urls)[i]? = (urls[i]?).map (stemOfUrl i) := by
  simp [positionalStems]

theorem cachedStemsOf_eq_normalizeStems (e : ProcessedStem) :
    cachedStemsOf e = normalizeStems (some e.stems) (some e.outputUrls) := by
  cases h : e.stems <;> simp [cachedStemsOf, normalizeStems, h]

theorem servedStemsOf_eq_normalizeStems (o : SavedOutput) :
    servedStemsOf o = normalizeStems o.stems o.outputUrls := by
  unfold servedStemsOf normalizeStems
  rfl

/-! ## Basic facts about the two collections -/

theorem findOne_some_cacheId {coll : List ProcessedStem} {cacheId : String} {e : ProcessedStem}
    (h : findOne coll cacheId = some e) : e.cacheId = cacheId ∧ e ∈ coll := by
  unfold findOne at h
  exact ⟨by simpa using List.find?_some h, List.mem_of_find?_eq_some h⟩

theorem findOne_eq_none_iff {coll : List ProcessedStem} {cacheId : String} :
    findOne coll cacheId = none ↔ ∀ e ∈ coll, e.cacheId ≠ cacheId := by
  simp [findOne]

theorem findOne_isSome_of_mem {coll : List ProcessedStem} {e : ProcessedStem} (h : e ∈ coll) :
    ∃ d, findOne coll e.cacheId = some d := by
  cases hf : findOne coll e.cacheId with
  | some d => exact ⟨d, rfl⟩
  | none => exact absurd rfl (findOne_eq_none_iff.mp hf e h)

theorem mem_updateFirst {coll : List ProcessedStem} {cacheId inputName : String}
    {outputUrls : List String} {stems : List Stem} {e : ProcessedStem}
    (h : e ∈ updateFirst coll cacheId inputName outputUrls stems) :
    e ∈ coll ∨ (e.cacheId = cacheId ∧ e.outputUrls = outputUrls ∧ e.stems = stems) := by
  induction coll with
  | nil => simp [updateFirst] at h
  | cons d rest ih =>
    unfold updateFirst at h
    split at h
    · rcases List.mem_cons.mp h with h | h
      · right; subst h; exact ⟨rfl, rfl, rfl⟩
      · left; exact List.mem_cons_of_mem _ h
    · rcases List.mem_cons.mp h with h | h
      · left; subst h; exact List.mem_cons_self _ _
      · rcases ih h with h | h
        · left; exact List.mem_cons_of_mem _ h
        · right; exact h

theorem findOne_updateFirst {coll : List ProcessedStem} {cacheId inputName : String}
    {outputUrls : List String} {stems : List Stem} {d : ProcessedStem}
    (h : findOne coll cacheId = some d) :
    findOne (updateFirst coll cacheId inputName outputUrls stems) cacheId =
      some { d with cacheId := cacheId, inputName := inputName,
                    outputUrls := outputUrls, stems := stems } := by
  induction coll with
  | nil => simp [findOne] at h
  | cons a rest ih =>
    unfold updateFirst
    by_cases ha : a.cacheId = cacheId
    · have : d = a := by simpa [findOne, ha] using h.symm
      subst this
      simp [findOne, ha]
    · have hrest : findOne rest cacheId = some d := by simpa [findOne, ha] using h
      have := ih hrest
      simpa [findOne, ha] using this

theorem cacheIds_updateFirst (coll : List ProcessedStem) (cacheId inputName : String)
    (outputUrls : List String) (stems : List Stem) :
    (updateFirst coll cacheId inputName outputUrls stems).map (fun e => e.cacheId) =
      coll.map (fun e => e.cacheId) := by
  induction coll with
  | nil => rfl
  | cons a rest ih =>
    unfold updateFirst
    by_cases ha : a.cacheId = cacheId
    · simp [ha]
    · simp [ha, ih]

theorem mem_findOneAndUpdate {env : Env} {coll : List ProcessedStem}
    {cacheId inputName : String} {outputUrls : List String} {stems : List Stem}
    {e : ProcessedStem}
    (h : e ∈ findOneAndUpdate env coll cacheId inputName outputUrls stems) :
    e ∈ coll ∨ (e.cacheId = cacheId ∧ e.outputUrls = outputUrls ∧ e.stems = stems) := by
  unfold findOneAndUpdate at h
  split at h
  · exact mem_updateFirst h
  · rcases List.mem_append.mp h with h | h
    · exact Or.inl h
    · right
      have := List.mem_singleton.mp h
      subst this
      exact ⟨rfl, rfl, rfl⟩

theorem findOne_findOneAndUpdate (env : Env) (coll : List ProcessedStem)
    (cacheId inputName : String) (outputUrls : List String) (stems : List Stem) :
    ∃ e, findOne (findOneAndUpdate env coll cacheId inputName outputUrls stems) cacheId
          = some e ∧
      e.cacheId = cacheId ∧ e.inputName = inputName ∧ e.outputUrls = outputUrls ∧
      e.stems = stems := by
  unfold findOneAndUpdate
  cases hf : findOne coll cacheId with
  | some d =>
    exact ⟨{ d with cacheId := cacheId, inputName := inputName, outputUrls := outputUrls,
                    stems := stems }, findOne_updateFirst hf, rfl, rfl, rfl, rfl⟩
  | none =>
    refine ⟨{ cacheId := cacheId, inputName := inputName, stems := stems,
              outputUrls := outputUrls, createdAt := env.now }, ?_, rfl, rfl, rfl, rfl⟩
    have hnone : List.find? (fun d => d.cacheId == cacheId) coll = none := hf
    simp [findOne, List.find?_append, hnone]

theorem cacheIds_findOneAndUpdate_subset {env : Env} {coll : List ProcessedStem}
    {cacheId inputName : String} {outputUrls : List String} {stems : List Stem}
    {c : String} (h : ∃ e ∈ coll, e.cacheId = c) :
    ∃ e ∈ findOneAndUpdate env coll cacheId inputName outputUrls stems, e.cacheId = c := by
  obtain ⟨e, he, hc⟩ := h
  unfold findOneAndUpdate
  split
  · have hm : c ∈ (updateFirst coll cacheId inputName outputUrls stems).map
        (fun e => e.cacheId) := by
      rw [cacheIds_updateFirst]
      exact List.mem_map.mpr ⟨e, he, hc⟩
    obtain ⟨e2, he2, hc2⟩ := List.mem_map.mp hm
    exact ⟨e2, he2, hc2⟩
  · exact ⟨e, List.mem_append_left _ he, hc⟩

theorem findById_some_id {users : List User} {userId : String} {u : User}
    (h : findById users userId = some u) : u.id = userId ∧ u ∈ users := by
  unfold findById at h
  exact ⟨by simpa using List.find?_some h, List.mem_of_find?_eq_some h⟩

theorem mem_saveUser {users : List User} {user u : User} (h : u ∈ saveUser users user) :
    u ∈ users ∨ u = user := by
  induction users with
  | nil => simp [saveUser] at h
  | cons a rest ih =>
    unfold saveUser at h
    split at h
    · rcases List.mem_cons.mp h with h | h
      · exact Or.inr h
      · exact Or.inl (List.mem_cons_of_mem _ h)
    · rcases List.mem_cons.mp h with h | h
      · left; subst h; exact List.mem_cons_self _ _
      · rcases ih h with h | h
        · exact Or.inl (List.mem_cons_of_mem _ h)
        · exact Or.inr h

theorem findById_saveUser_self {users : List User} (user : User) {u0 : User}
    (h : findById users user.id = some u0) :
    findById (saveUser users user) user.id = some user := by
  induction users with
  | nil => simp [findById] at h
  | cons a rest ih =>
    unfold saveUser
    by_cases ha : a.id = user.id
    · simp [findById, ha]
    · have hrest : findById rest user.id = some u0 := by simpa [findById, ha] using h
      have := ih hrest
      simpa [findById, ha] using this

theorem findById_saveUser_other (users : List User) (user : User) {userId : String}
    (hne : userId ≠ user.id) :
    findById (saveUser users user) userId = findById users userId := by
  induction users with
  | nil => rfl
  | cons a rest ih =>
    unfold saveUser
    by_cases ha : a.id = user.id
    · have h1 : ¬ a.id = userId := fun h => hne (h.symm.trans ha)
      have h2 : ¬ user.id = userId := fun h => hne h.symm
      simp [findById, ha, h1, h2]
    · by_cases hb : a.id = userId
      · have hc : ¬ userId = user.id := hne
        subst hb
        simp [findById, hc]
      · simpa [findById, ha, hb] using ih

theorem persistUserOutput_of_missing {env : Env} {users : List User}
    {userId inputName cacheId : String} {stems : List Stem}
    (h : findById users userId = none) :
    persistUserOutput env users userId inputName cacheId stems = users := by
  simp [persistUserOutput, h]

theorem findById_persistUserOutput (env : Env) (inputName cacheId : String)
    (stems : List Stem) {users : List User} {userId : String} {user : User}
    (h : findById users userId = some user) :
    findById (persistUserOutput env users userId inputName cacheId stems) userId =
      some { user with savedOutputs :=
               user.savedOutputs ++ [newSavedOutput env inputName cacheId stems] } := by
  have hid := (findById_some_id h).1
  simp only [persistUserOutput, h]
  subst hid
  exact findById_saveUser_self { user with savedOutputs :=
    user.savedOutputs ++ [newSavedOutput env inputName cacheId stems] } h

theorem findById_persistUserOutput_other (env : Env) (users : List User)
    (userId inputName cacheId : String) (stems : List Stem) {other : String}
    (hne : other ≠ userId) :
    findById (persistUserOutput env users userId inputName cacheId stems) other =
      findById users other := by
  unfold persistUserOutput
  cases h : findById users userId with
  | none => rfl
  | some user =>
    have hid := (findById_some_id h).1
    exact findById_saveUser_other users _ (by simpa [hid] using hne)

theorem mem_persistUserOutput {env : Env} {users : List User}
    {userId inputName cacheId : String} {stems : List Stem} {u : User}
    (h : u ∈ persistUserOutput env users userId inputName cacheId stems) :
    u ∈ users ∨ ∃ u0 ∈ users, u = { u0 with savedOutputs :=
      u0.savedOutputs ++ [newSavedOutput env inputName cacheId stems] } := by
  unfold persistUserOutput at h
  cases hf : findById users userId with
  | none => rw [hf] at h; exact Or.inl h
  | some user =>
    rw [hf] at h
    rcases mem_saveUser h with h | h
    · exact Or.inl h
    · exact Or.inr ⟨user, (findById_some_id hf).2, h⟩

/-! ## Facts about whole submissions -/

theorem strOr_eq_default {s : Option String} {d : String}
    (h : s = none ∨ s = some "" ∨ s = some d) : strOr s d = d := by
  rcases h with h | h | h <;> subst h <;> simp [strOr]

theorem runInference_keeps_cacheIds (env : Env) (backend : Backend) (st : Store)
    (req : InferenceRequest) {c : String} (h : ∃ e ∈ st.processedStems, e.cacheId = c) :
    ∃ e ∈ (runInference env backend st req).2.processedStems, e.cacheId = c := by
  cases hfile : req.file with
  | none => simpa [runInference, hfile] using h
  | some audioFile =>
    cases hfind : findOne st.processedStems (env.computeFileHash audioFile.content) with
    | some cachedStem => simpa [runInference, hfile, hfind] using h
    | none =>
      cases hb : backend ⟨audioFile.content, audioFile.originalname,
                          env.computeFileHash audioFile.content⟩ with
      | error message => simpa [runInference, hfile, hfind, hb] using h
      | ok data =>
        simp only [runInference, hfile, hfind, hb]
        exact cacheIds_findOneAndUpdate_subset h

theorem runInference_preserves_references (env : Env) (backend : Backend) (st : Store)
    (req : InferenceRequest) (hinv : HistoryReferencesCache st) :
    HistoryReferencesCache (runInference env backend st req).2 := by
  intro u hu r hr
  have hold : ∀ u0 ∈ st.users, ∀ r0 ∈ u0.savedOutputs,
      ∃ e ∈ (runInference env backend st req).2.processedStems, e.cacheId = r0.cacheId :=
    fun u0 hu0 r0 hr0 => runInference_keeps_cacheIds env backend st req (hinv u0 hu0 r0 hr0)
  cases hfile : req.file with
  | none =>
    have hu2 : u ∈ st.users := by simpa [runInference, hfile] using hu
    exact hold u hu2 r hr
  | some audioFile =>
    cases hfind : findOne st.processedStems (env.computeFileHash audioFile.content) with
    | some cachedStem =>
      have hu2 : u ∈ persistUserOutput env st.users req.userId audioFile.originalname
          (env.computeFileHash audioFile.content) (cachedStemsOf cachedStem) := by
        simpa [runInference, hfile, hfind] using hu
      rcases mem_persistUserOutput hu2 with h | ⟨u0, hu0, h⟩
      · exact hold u h r hr
      · subst h
        rcases List.mem_append.mp hr with h | h
        · exact hold u0 hu0 r h
        · have hr2 := List.mem_singleton.mp h
          subst hr2
          obtain ⟨hid, hmem⟩ := findOne_some_cacheId hfind
          exact runInference_keeps_cacheIds env backend st req ⟨cachedStem, hmem, hid⟩
    | none =>
      cases hb : backend ⟨audioFile.content, audioFile.originalname,
                          env.computeFileHash audioFile.content⟩ with
      | error message =>
        have hu2 : u ∈ st.users := by simpa [runInference, hfile, hfind, hb] using hu
        exact hold u hu2 r hr
      | ok data =>
        have hu2 : u ∈ persistUserOutput env st.users req.userId audioFile.originalname
            (strOr data.cache_id (env.computeFileHash audioFile.content))
            (normalizeStems data.stems data.files) := by
          simpa [runInference, hfile, hfind, hb] using hu
        rcases mem_persistUserOutput hu2 with h | ⟨u0, hu0, h⟩
        · exact hold u h r hr
        · subst h
          rcases List.mem_append.mp hr with h | h
          · exact hold u0 hu0 r h
          · have hr2 := List.mem_singleton.mp h
            subst hr2
            obtain ⟨e, he, hid, _⟩ := findOne_findOneAndUpdate env st.processedStems
              (strOr data.cache_id (env.computeFileHash audioFile.content))
              audioFile.originalname
              ((normalizeStems data.stems data.files).map (fun stem => stem.url))
              (normalizeStems data.stems data.files)
            refine ⟨e, ?_, hid⟩
            simp only [runInference, hfile, hfind, hb]
            exact (findOne_some_cacheId he).2

/-! ## `parseInt` on decimal renderings -/

theorem digitChar_toNat : ∀ k, k < 10 → (Nat.digitChar k).toNat = 48 + k := by decide

theorem toDigitsCore_spec : ∀ (n fuel : Nat), n < fuel → ∀ ds : List Char,
    ∃ cs : List Char, Nat.toDigitsCore 10 fuel n ds = cs ++ ds ∧ cs ≠ [] ∧
      (∀ c ∈ cs, IsDecDigit c) ∧
      cs.foldl (fun acc c => acc * 10 + (c.toNat - 48)) 0 = n := by
  intro n
  induction n using Nat.strong_induction_on with
  | _ n ih =>
    intro fuel hf ds
    cases fuel with
    | zero => omega
    | succ f =>
      have hd : (Nat.digitChar (n % 10)).toNat = 48 + n % 10 :=
        digitChar_toNat _ (Nat.mod_lt _ (by decide))
      by_cases h0 : n / 10 = 0
      · refine ⟨[Nat.digitChar (n % 10)], ?_, by simp, ?_, ?_⟩
        · simp [Nat.toDigitsCore, h0]
        · intro c hc
          have := List.mem_singleton.mp hc
          subst this
          unfold IsDecDigit
          omega
        · simp only [List.foldl_cons, List.foldl_nil, hd]
          omega
      · have hlt : n / 10 < n := by omega
        obtain ⟨cs, hcs, hne, hdig, hval⟩ := ih (n / 10) hlt f (by omega)
          (Nat.digitChar (n % 10) :: ds)
        refine ⟨cs ++ [Nat.digitChar (n % 10)], ?_, by simp, ?_, ?_⟩
        · simp [Nat.toDigitsCore, h0, hcs]
        · intro c hc
          rcases List.mem_append.mp hc with h | h
          · exact hdig c h
          · have := List.mem_singleton.mp h
            subst this
            unfold IsDecDigit
            omega
        · rw [List.foldl_append, hval]
          simp only [List.foldl_cons, List.foldl_nil, hd]
          omega

theorem digitValue_dec {c : Char} (h : IsDecDigit c) :
    digitValue 10 c = some (c.toNat - 48) := by
  unfold IsDecDigit at h
  have h2 : c.toNat - 48 < 10 := by omega
  simp [digitValue, h.1, h.2, Option.filter, h2]

theorem leadingDigits_dec : ∀ cs : List Char, (∀ c ∈ cs, IsDecDigit c) →
    leadingDigits 10 cs = cs.map (fun c => c.toNat - 48) := by
  intro cs
  induction cs with
  | nil => intro _; rfl
  | cons c rest ih =>
    intro h
    have hc := h c (List.mem_cons_self _ _)
    simp only [leadingDigits, digitValue_dec hc, List.map_cons]
    rw [ih (fun x hx => h x (List.mem_cons_of_mem _ hx))]

theorem not_ws_of_dec {c : Char} (h : IsDecDigit c) : isJsWhiteSpace c = false := by
  unfold IsDecDigit at h
  simp only [isJsWhiteSpace, Bool.or_eq_false_iff, Bool.and_eq_false_iff,
    beq_eq_false_iff_ne, ne_eq, decide_eq_false_iff_not]
  omega

theorem splitSign_dec {c : Char} {rest : List Char} (h : IsDecDigit c) :
    splitSign (c :: rest) = (1, c :: rest) := by
  unfold IsDecDigit at h
  unfold splitSign
  split
  · rename_i heq
    have hc : c = '-' := (List.cons.inj heq).1
    subst hc
    exact absurd h (by decide)
  · rename_i heq
    have hc : c = '+' := (List.cons.inj heq).1
    subst hc
    exact absurd h (by decide)
  · rfl

theorem splitRadix_dec {cs : List Char} (h : ∀ c ∈ cs, IsDecDigit c) :
    splitRadix cs = (10, cs) := by
  unfold splitRadix
  split
  · have hx := h 'x' (by simp)
    unfold IsDecDigit at hx
    exact absurd hx (by decide)
  · have hx := h 'X' (by simp)
    unfold IsDecDigit at hx
    exact absurd hx (by decide)
  · rfl

/-- Every decimal rendering is read back as the number itself. -/
theorem parseMathInt_toString (n : Nat) : parseMathInt (toString n) = some (n : Int) := by
  obtain ⟨cs, hcs, hne, hdig, hval⟩ := toDigitsCore_spec n (n + 1) (Nat.lt_succ_self n) []
  have hlist : (toString n).toList = cs := by
    show (Nat.repr n).toList = cs
    simp only [Nat.repr, Nat.toDigits, hcs, List.append_nil]
    rfl
  cases cs with
  | nil => exact absurd rfl hne
  | cons c rest =>
    have hc := hdig c (List.mem_cons_self _ _)
    have hld := leadingDigits_dec (c :: rest) hdig
    unfold parseMathInt
    rw [hlist]
    simp only [List.dropWhile_cons, not_ws_of_dec hc, Bool.false_eq_true, if_false,
      splitSign_dec hc, splitRadix_dec hdig]
    rw [hld]
    simp only [List.map_cons, digitsValue]
    have : List.foldl (fun acc d => acc * 10 + d) 0
        ((c.toNat - 48) :: List.map (fun c => c.toNat - 48) rest) = n := by
      have hm : (c.toNat - 48) :: List.map (fun c => c.toNat - 48) rest
          = List.map (fun c : Char => c.toNat - 48) (c :: rest) := rfl
      rw [hm, List.foldl_map]
      exact hval
    rw [this]
    simp

/-! ## Facts about sorting and slicing -/

theorem sortSavedOutputs_perm (l : List SavedOutput) : (sortSavedOutputs l).Perm l :=
  List.perm_insertionSort newerFirst l

theorem sortSavedOutputs_sorted (l : List SavedOutput) :
    (sortSavedOutputs l).Pairwise newerFirst :=
  List.sorted_insertionSort newerFirst l

theorem sortSavedOutputs_strict {l : List SavedOutput}
    (hdistinct : (l.map (fun o => o.createdAt)).Nodup) :
    (sortSavedOutputs l).Pairwise (fun a b => b.createdAt < a.createdAt) := by
  have hnd : ((sortSavedOutputs l).map (fun o => o.createdAt)).Nodup :=
    ((sortSavedOutputs_perm l).map _).nodup_iff.mpr hdistinct
  have hne : (sortSavedOutputs l).Pairwise (fun a b => a.createdAt ≠ b.createdAt) := by
    have := List.pairwise_map.mp hnd
    exact this
  exact ((sortSavedOutputs_sorted l).and hne).imp
    (fun h => Nat.lt_of_le_of_ne h.1 (fun e => h.2 e.symm))

theorem descending_unique {l d1 d2 : List SavedOutput}
    (hp1 : d1.Perm l) (hs1 : d1.Pairwise (fun a b => b.createdAt < a.createdAt))
    (hp2 : d2.Perm l) (hs2 : d2.Pairwise (fun a b => b.createdAt < a.createdAt)) :
    d1 = d2 := by
  haveI : IsAntisymm SavedOutput (fun a b => b.createdAt < a.createdAt) :=
    ⟨fun _ _ h1 h2 => absurd h1 (Nat.lt_asymm h2)⟩
  exact List.eq_of_perm_of_sorted (hp1.trans hp2.symm) hs1 hs2

/-! ## Facts about JavaScript numbers -/

theorem toNumber_natCast (m : Nat) :
    toNumber (m : Int) = match roundToDouble m with
      | none => .inf false
      | some v => .fin (v : Int) := by
  have h : ¬ ((m : Int) < 0) := by omega
  simp only [toNumber, Int.natAbs_ofNat, h, decide_False, if_false]

theorem toNumber_small {m : Nat} (h : m < 2 ^ 53) : toNumber (m : Int) = .fin (m : Int) := by
  rw [toNumber_natCast]
  unfold roundToDouble
  rw [if_pos h]

theorem roundToDouble_large {m : Nat} (h : 2 ^ 53 ≤ m) :
    roundToDouble m = none ∨ ∃ v, 2 ^ 53 ≤ v ∧ roundToDouble m = some v := by
  have h1 : ¬ m < 2 ^ 53 := by omega
  by_cases h2 : doubleOverflow ≤ m
  · left
    unfold roundToDouble
    rw [if_neg h1, if_pos h2]
  · right
    have hm0 : m ≠ 0 := by
      intro h0; subst h0; simp at h
    have hlog : 53 ≤ Nat.log2 m := (Nat.le_log2 hm0).2 h
    obtain ⟨e, he⟩ : ∃ e, Nat.log2 m - 52 = e + 1 := ⟨Nat.log2 m - 53, by omega⟩
    have hq : 2 ^ (e + 1) * 2 ^ 52 ≤ m := by
      have := Nat.log2_self_le hm0
      have e2 : Nat.log2 m = (e + 1) + 52 := by omega
      rw [e2, Nat.pow_add] at this
      exact this
    have hlo : 2 ^ 52 ≤ m / 2 ^ (e + 1) := by
      rw [Nat.le_div_iff_mul_le (Nat.pos_pow_of_pos _ (by decide))]
      rw [Nat.mul_comm]; exact hq
    have hq2 : 2 ≤ 2 ^ (e + 1) := by
      rw [Nat.pow_succ]
      have : 1 ≤ 2 ^ e := Nat.one_le_two_pow
      omega
    have key : ∀ sig, m / 2 ^ (e + 1) ≤ sig → 2 ^ 53 ≤ sig * 2 ^ (e + 1) := by
      intro sig hs
      calc 2 ^ 53 = 2 ^ 52 * 2 := by norm_num
        _ ≤ sig * 2 ^ (e + 1) := Nat.mul_le_mul (le_trans hlo hs) hq2
    simp only [roundToDouble, h1, h2, if_false, he]
    refine ⟨_, ?_, rfl⟩
    apply key
    split
    · exact le_refl _
    · split
      · exact Nat.le_succ _
      · split
        · exact le_refl _
        · exact Nat.le_succ _

theorem toNumber_atLeast {c m : Nat} (hc : c ≤ 2 ^ 53) (hm : c ≤ m) :
    AtLeast c (toNumber (m : Int)) := by
  by_cases h : m < 2 ^ 53
  · right
    exact ⟨m, hm, toNumber_small h⟩
  · rw [toNumber_natCast]
    rcases roundToDouble_large (Nat.le_of_not_lt h) with h0 | ⟨v, hv, h0⟩
    · left; rw [h0]
    · right; rw [h0]; exact ⟨v, le_trans hc hv, rfl⟩

theorem toNumber_finite {m : Nat} (h1 : 2 ^ 53 ≤ m) (h2 : m < doubleOverflow) :
    ∃ v : Nat, 2 ^ 53 ≤ v ∧ toNumber (m : Int) = .fin (v : Int) := by
  rw [toNumber_natCast]
  rcases roundToDouble_large h1 with h0 | ⟨v, hv, h0⟩
  · have h3 : ¬ m < 2 ^ 53 := by omega
    have h4 : ¬ doubleOverflow ≤ m := Nat.not_le.mpr h2
    unfold roundToDouble at h0
    rw [if_neg h3, if_neg h4] at h0
    cases h0
  · exact ⟨v, hv, by rw [h0]⟩

theorem clampIndex_atLeast {n c : Nat} {x : JSNum} (h : AtLeast c x) (hn : n ≤ c) :
    clampIndex n x = n := by
  rcases h with h | ⟨v, hv, h⟩
  · subst h; rfl
  · subst h
    simp only [clampIndex]
    have : ¬ ((v : Int) < 0) := by omega
    simp only [this, if_false]
    omega

theorem clampIndex_natCast (n k : Nat) : clampIndex n (.fin (k : Int)) = min k n := by
  simp only [clampIndex]
  have : ¬ ((k : Int) < 0) := by omega
  simp only [this, if_false]
  omega

theorem drop_take_window {α : Type} (xs : List α) (k s : Nat) :
    (xs.drop (min k xs.length)).take (min (k + s) xs.length - min k xs.length)
      = (xs.drop k).take s := by
  by_cases hk : k ≤ xs.length
  · rw [Nat.min_eq_left hk]
    by_cases hs : k + s ≤ xs.length
    · rw [Nat.min_eq_left hs, Nat.add_sub_cancel_left]
    · rw [Nat.min_eq_right (by omega)]
      rw [List.take_of_length_le (by simp), List.take_of_length_le (by simp; omega)]
  · have e1 : min k xs.length = xs.length := Nat.min_eq_right (by omega)
    have e2 : min (k + s) xs.length = xs.length := Nat.min_eq_right (by omega)
    rw [e1, e2, List.drop_of_length_le (le_refl _), List.drop_of_length_le (by omega)]
    simp

theorem jsSlice_of_start_atLeast {α : Type} (xs : List α) {c : Nat} {start : JSNum}
    (stop : JSNum) (h : AtLeast c start) (hn : xs.length ≤ c) :
    jsSlice xs start stop = [] := by
  unfold jsSlice
  simp only [clampIndex_atLeast h hn, List.drop_of_length_le (le_refl _)]
  simp

theorem sub_one_small {p : Nat} (hp : 1 ≤ p) (h : p < 2 ^ 53) :
    (toNumber (p : Int)).sub (.fin 1) = .fin ((p - 1 : Nat) : Int) := by
  rw [toNumber_small h]
  have e : (p : Int) + -1 = ((p - 1 : Nat) : Int) := by omega
  show toNumber ((p : Int) + -1) = _
  rw [e]
  exact toNumber_small (by omega)

theorem sub_one_atLeast {c : Nat} {x : JSNum} (h : AtLeast (c + 1) x) (hc : c ≤ 2 ^ 53) :
    AtLeast c (x.sub (.fin 1)) := by
  rcases h with h | ⟨v, hv, h⟩
  · subst h; left; rfl
  · subst h
    have e : (v : Int) + -1 = ((v - 1 : Nat) : Int) := by omega
    show AtLeast c (toNumber ((v : Int) + -1))
    rw [e]
    exact toNumber_atLeast hc (by omega)

theorem mul_atLeast {a b c : Nat} {x y : JSNum} (hx : AtLeast a x) (hy : AtLeast b y)
    (ha : 1 ≤ a) (hb : 1 ≤ b) (hc : c ≤ 2 ^ 53) (hab : c ≤ a * b) :
    AtLeast c (x.mul y) := by
  rcases hx with hx | ⟨u, hu, hx⟩ <;> rcases hy with hy | ⟨v, hv, hy⟩ <;> subst hx <;> subst hy
  · left; rfl
  · left
    have h1 : (v : Int) ≠ 0 := by omega
    have h2 : ¬ ((v : Int) < 0) := by omega
    simp [JSNum.mul, h1, h2]
  · left
    have h1 : (u : Int) ≠ 0 := by omega
    have h2 : ¬ ((u : Int) < 0) := by omega
    simp [JSNum.mul, h1, h2]
  · have e : (u : Int) * (v : Int) = ((u * v : Nat) : Int) := by push_cast; rfl
    show AtLeast c (toNumber ((u : Int) * (v : Int)))
    rw [e]
    exact toNumber_atLeast hc (le_trans hab (Nat.mul_le_mul hu hv))

theorem page_window {α : Type} (xs : List α) (p s : Nat) (hp : 1 ≤ p) (hs : 1 ≤ s)
    (hn : xs.length < 2 ^ 32) (hfin : 2 ≤ p ∨ s < doubleOverflow) :
    jsSlice xs (((toNumber (p : Int)).sub (.fin 1)).mul (toNumber (s : Int)))
      ((((toNumber (p : Int)).sub (.fin 1)).mul (toNumber (s : Int))).add (toNumber (s : Int)))
      = (xs.drop ((p - 1) * s)).take s := by
  have h32 : (2 : Nat) ^ 32 ≤ 2 ^ 53 := by norm_num
  have hS1 : AtLeast 1 (toNumber (s : Int)) := toNumber_atLeast (by norm_num) hs
  -- the start is at least `2^32`: both sides are empty
  have big : ∀ {start : JSNum} (stop : JSNum), AtLeast (2 ^ 32) start →
      2 ^ 32 ≤ (p - 1) * s →
      jsSlice xs start stop = (xs.drop ((p - 1) * s)).take s := by
    intro start stop hst hK
    rw [jsSlice_of_start_atLeast xs stop hst (by omega),
      List.drop_of_length_le (by omega)]
    simp
  -- the start is exact
  have exact : ∀ (t : JSNum), (p - 1) * s < 2 ^ 53 →
      (t = .fin (s : Int) ∧ s < 2 ^ 53 ∨ AtLeast (2 ^ 53) t ∧ 2 ^ 53 ≤ s) →
      jsSlice xs (.fin (((p - 1) * s : Nat) : Int))
        ((JSNum.fin (((p - 1) * s : Nat) : Int)).add t)
        = (xs.drop ((p - 1) * s)).take s := by
    intro t hK ht
    have hstop : clampIndex xs.length ((JSNum.fin (((p - 1) * s : Nat) : Int)).add t)
        = min ((p - 1) * s + s) xs.length := by
      rcases ht with ⟨ht, hs53⟩ | ⟨ht, hs53⟩
      · subst ht
        have e : (((p - 1) * s : Nat) : Int) + (s : Int) = (((p - 1) * s + s : Nat) : Int) := by
          push_cast; rfl
        show clampIndex xs.length (toNumber ((((p - 1) * s : Nat) : Int) + (s : Int))) = _
        rw [e]
        by_cases hsum : (p - 1) * s + s < 2 ^ 53
        · rw [toNumber_small hsum, clampIndex_natCast]
        · rw [clampIndex_atLeast (toNumber_atLeast (le_refl _) (Nat.le_of_not_lt hsum))
            (by omega)]
          omega
      · have hadd : AtLeast (2 ^ 53) ((JSNum.fin (((p - 1) * s : Nat) : Int)).add t) := by
          rcases ht with ht | ⟨v, hv, ht⟩
          · subst ht; left; rfl
          · subst ht
            have e : (((p - 1) * s : Nat) : Int) + (v : Int)
                = (((p - 1) * s + v : Nat) : Int) := by push_cast; rfl
            show AtLeast (2 ^ 53) (toNumber ((((p - 1) * s : Nat) : Int) + (v : Int)))
            rw [e]
            exact toNumber_atLeast (le_refl _) (by omega)
        rw [clampIndex_atLeast hadd (by omega)]
        omega
    unfold jsSlice
    rw [hstop, clampIndex_natCast]
    exact drop_take_window xs ((p - 1) * s) s
  by_cases hp53 : p < 2 ^ 53
  · rw [sub_one_small hp hp53]
    by_cases hs53 : s < 2 ^ 53
    · rw [toNumber_small hs53]
      have e : (((p - 1 : Nat) : Int)) * (s : Int) = (((p - 1) * s : Nat) : Int) := by
        push_cast; rfl
      show jsSlice xs (toNumber ((((p - 1 : Nat) : Int)) * (s : Int)))
        ((toNumber ((((p - 1 : Nat) : Int)) * (s : Int))).add (.fin (s : Int))) = _
      rw [e]
      by_cases hK : (p - 1) * s < 2 ^ 53
      · rw [toNumber_small hK]
        exact exact _ hK (Or.inl ⟨rfl, hs53⟩)
      · exact big _ (toNumber_atLeast h32 (by omega)) (by omega)
    · have hs53 : 2 ^ 53 ≤ s := Nat.le_of_not_lt hs53
      by_cases hp1 : p = 1
      · subst hp1
        have hsfin : s < doubleOverflow := by
          rcases hfin with h | h
          · omega
          · exact h
        obtain ⟨v, hv, hv2⟩ := toNumber_finite hs53 hsfin
        rw [hv2]
        have e0 : JSNum.mul (.fin ((1 - 1 : Nat) : Int)) (.fin (v : Int))
            = .fin (((1 - 1) * s : Nat) : Int) := by
          show toNumber (((1 - 1 : Nat) : Int) * (v : Int)) = _
          simp only [Nat.sub_self, Nat.cast_zero, zero_mul, Nat.zero_mul]
          exact toNumber_small (m := 0) (by norm_num)
        rw [e0]
        exact exact _ (by simp) (Or.inr ⟨Or.inr ⟨v, hv, rfl⟩, hs53⟩)
      · have hp2 : 1 ≤ p - 1 := by omega
        have hP : AtLeast (p - 1) (JSNum.fin ((p - 1 : Nat) : Int)) :=
          Or.inr ⟨p - 1, le_refl _, rfl⟩
        have hS : AtLeast (2 ^ 53) (toNumber (s : Int)) := toNumber_atLeast (le_refl _) hs53
        have hmul := mul_atLeast (c := 2 ^ 32) hP hS hp2 (by norm_num) h32
          (by
            calc 2 ^ 32 ≤ 1 * 2 ^ 53 := by norm_num
              _ ≤ (p - 1) * 2 ^ 53 := Nat.mul_le_mul hp2 (le_refl _))
        exact big _ hmul
          (by
            calc 2 ^ 32 ≤ 1 * 2 ^ 53 := by norm_num
              _ ≤ (p - 1) * s := Nat.mul_le_mul hp2 hs53)
  · have hp53 : 2 ^ 53 ≤ p := Nat.le_of_not_lt hp53
    have hP : AtLeast (2 ^ 53 - 1 + 1) (toNumber (p : Int)) :=
      toNumber_atLeast (by norm_num) (by omega)
    have hP1 := sub_one_atLeast hP (by norm_num)
    have hmul := mul_atLeast (c := 2 ^ 32) hP1 hS1 (by norm_num) (le_refl _) h32
      (by norm_num)
    exact big _ hmul
      (by
        calc 2 ^ 32 ≤ (2 ^ 53 - 1) * 1 := by norm_num
          _ ≤ (p - 1) * s := Nat.mul_le_mul (by omega) hs)

theorem numOr_atLeast {x : JSNum} (d : JSNum) (h : AtLeast 1 x) : numOr x d = x := by
  rcases h with h | ⟨v, hv, h⟩
  · subst h; rfl
  · subst h
    have h0 : (v : Int) ≠ 0 := by omega
    simp [numOr, h0]

/-! ## Claims -/

/-- C3. The normalisation of a backend answer in `runInference`: a named list
that is present and non-empty is returned as it is; otherwise (named list absent
or empty) the result has the length of the positional list (taken as empty when
absent) and its `i`-th element is named `"Stem "` followed by the decimal of
`i + 1` and located at the `i`-th position; with both absent or empty the
result is empty. -/
theorem normalizeStems_spec (S : Option (List Stem)) (F : Option (List String)) :
    (∀ named, S = some named → named ≠ [] → normalizeStems S F = named) ∧
    ((S = none ∨ S = some []) →
      (normalizeStems S F).length = (F.getD []).length ∧
      ∀ (i : Nat) (h : i < (F.getD []).length),
        (normalizeStems S F)[i]? =
          some { name := "Stem " ++ toString (i + 1), url := (F.getD [])[i] }) ∧
    ((S = none ∨ S = some []) → (F = none ∨ F = some []) → normalizeStems S F = []) := by
  refine ⟨?_, ?_, ?_⟩
  · intro named hS hne
    subst hS
    cases named with
    | nil => exact absurd rfl hne
    | cons a l => rfl
  · intro hS
    have hn : normalizeStems S F = positionalStems (F.getD []) := by
      rcases hS with h | h <;> subst h <;> rfl
    rw [hn]
    refine ⟨positionalStems_length _, ?_⟩
    intro i h
    rw [positionalStems_getElem?, List.getElem?_eq_getElem h]
    rfl
  · intro hS hF
    have hn : normalizeStems S F = positionalStems (F.getD []) := by
      rcases hS with h | h <;> subst h <;> rfl
    rw [hn]
    rcases hF with h | h <;> subst h <;> rfl

/-- Witness for C3 at the three inputs of the normalisation round trip. -/
theorem normalizeStems_spec_witness :
    normalizeStems (some [⟨"Vocals", "a"⟩]) (some ["z"]) = [⟨"Vocals", "a"⟩] ∧
    (normalizeStems none (some ["a", "b"]))[1]? = some ⟨"Stem 2", "b"⟩ ∧
    normalizeStems (some []) none = [] :=
  ⟨(normalizeStems_spec (some [⟨"Vocals", "a"⟩]) (some ["z"])).1 _ rfl (by decide),
   ((normalizeStems_spec none (some ["a", "b"])).2.1 (Or.inl rfl)).2 1 (by decide),
   (normalizeStems_spec (some []) none).2.2 (Or.inr rfl) (Or.inl rfl)⟩

/-- C6. The stems `runInference` serves on a cache hit, the stems
`getUserResults` serves for each record of the page, and the stems
`runInference` serves and stores on a miss are all the one normaliser applied
to the named list and the list of locations at hand: a stored entry with named
list `S` and locations `L`, a history record with named list `S` and locations
`L` and a backend answer with stems `S` and files `L` are served alike. A cache
entry and a history record with empty parts and locations `["x", "y"]` are
served as `Stem 1` at `x` and `Stem 2` at `y`. -/
theorem read_fallbacks_eq_normalizer :
    (∀ (env : Env) (backend : Backend) (st : Store) (userId : String)
        (audioFile : UploadedFile) (cachedStem : ProcessedStem),
      findOne st.processedStems (env.computeFileHash audioFile.content)
        = some cachedStem →
      okStems (runInference env backend st ⟨some audioFile, userId⟩).1
        = some (normalizeStems (some cachedStem.stems) (some cachedStem.outputUrls))) ∧
    (∀ (env : Env) (backend : Backend) (st : Store) (userId : String)
        (audioFile : UploadedFile) (data : BackendData),
      findOne st.processedStems (env.computeFileHash audioFile.content) = none →
      backend ⟨audioFile.content, audioFile.originalname,
               env.computeFileHash audioFile.content⟩ = .ok data →
      okStems (runInference env backend st ⟨some audioFile, userId⟩).1
        = some (normalizeStems data.stems data.files)) ∧
    (∀ (env : Env) (st : Store) (userId : String) (user : User) (query : ResultsQuery)
        (body : ResultsBody),
      findById st.users userId = some user →
      getUserResults env st userId query = .ok body →
      body.results.map (fun r => r.stems) =
        (jsSlice (sortSavedOutputs user.savedOutputs)
            ((body.page.sub (.fin 1)).mul body.limit)
            (((body.page.sub (.fin 1)).mul body.limit).add body.limit)).map
          (fun o => normalizeStems o.stems o.outputUrls)) ∧
    (∀ (env : Env) (st : Store) (userId : String) (o : SavedOutput)
        (S : List Stem) (L : List String),
      findById st.users userId = some ⟨userId, [o]⟩ →
      o.stems = some S → o.outputUrls = some L →
      (okBody (getUserResults env st userId ⟨none, none⟩)).map
          (fun b => b.results.map (fun r => r.stems))
        = some [normalizeStems (some S) (some L)]) ∧
    okStems (runInference demoEnv downBackend hitStore demoRequest).1
      = some [⟨"Stem 1", "x"⟩, ⟨"Stem 2", "y"⟩] ∧
    (okBody (getUserResults demoEnv legacyHistoryStore "u1" ⟨none, none⟩)).map
        (fun b => b.results.map (fun r => r.stems))
      = some [[⟨"Stem 1", "x"⟩, ⟨"Stem 2", "y"⟩]] := by
  refine ⟨?_, ?_, ?_, ?_, by decide, by decide⟩
  · intro env backend st userId audioFile cachedStem hit
    simp [runInference, hit, okStems, cachedStemsOf_eq_normalizeStems]
  · intro env backend st userId audioFile data hmiss hb
    simp [runInference, hmiss, hb, okStems]
  · intro env st userId user query body huser hbody
    simp only [getUserResults, huser] at hbody
    cases hbody
    have hf : (fun r : ResultItem => r.stems) ∘ resultItemOf env
        = fun o => normalizeStems o.stems o.outputUrls := by
      funext o
      simp only [Function.comp, resultItemOf, servedStemsOf_eq_normalizeStems]
    simp only [List.map_map, hf]
  · intro env st userId o S L huser hS hL
    have hnan : parseInt (queryArg none) = .nan := by decide
    have hskip : ((JSNum.fin 1).sub (.fin 1)).mul (.fin 10) = .fin ((0 : Nat) : Int) := by
      decide
    have hstop : (JSNum.fin ((0 : Nat) : Int)).add (.fin 10) = .fin ((10 : Nat) : Int) := by
      decide
    have hsort : sortSavedOutputs [o] = [o] := rfl
    simp only [getUserResults, huser, hnan, numOr, hskip, hstop, hsort, jsSlice,
      clampIndex_natCast, okBody]
    simp [resultItemOf, servedStemsOf_eq_normalizeStems, hS, hL]

/-- Witness for C6: the legacy cache entry of `hitStore` and the legacy history
record of `legacyHistoryStore`, both with empty parts and locations
`["x", "y"]`, and a backend answer with the same two locations. -/
theorem read_fallbacks_eq_normalizer_witness :
    okStems (runInference demoEnv downBackend hitStore ⟨some demoFile, "u1"⟩).1
      = some (normalizeStems (some legacyEntry.stems) (some legacyEntry.outputUrls)) ∧
    okStems (runInference demoEnv filesBackend missStore ⟨some demoFile, "u1"⟩).1
      = some (normalizeStems none (some ["x", "y"])) ∧
    (okBody (getUserResults demoEnv legacyHistoryStore "u1" ⟨none, none⟩)).map
        (fun b => b.results.map (fun r => r.stems))
      = some [normalizeStems (some []) (some ["x", "y"])] :=
  ⟨read_fallbacks_eq_normalizer.1 demoEnv downBackend hitStore "u1" demoFile legacyEntry
     (by decide),
   read_fallbacks_eq_normalizer.2.1 demoEnv filesBackend missStore "u1" demoFile
     ⟨none, none, some ["x", "y"], none⟩ (by decide) rfl,
   read_fallbacks_eq_normalizer.2.2.2.1 demoEnv legacyHistoryStore "u1" legacyRecord
     [] ["x", "y"] (by decide) rfl rfl⟩

/-- C1. When the fingerprint of the uploaded artifact already has a cache entry,
`runInference` gives the same answer and the same store whatever the backend
does, leaves the `ProcessedStem` collection as it was, and answers 200 with
status `"cached"`, the computed fingerprint as `cacheId`, and the normalised
stored entry as `stems`. -/
theorem runInference_cache_hit (env : Env) (b1 b2 : Backend) (st : Store)
    (userId : String) (audioFile : UploadedFile) (cachedStem : ProcessedStem)
    (hit : findOne st.processedStems (env.computeFileHash audioFile.content)
            = some cachedStem) :
    runInference env b1 st ⟨some audioFile, userId⟩
      = runInference env b2 st ⟨some audioFile, userId⟩ ∧
    (runInference env b1 st ⟨some audioFile, userId⟩).2.processedStems
      = st.processedStems ∧
    (runInference env b1 st ⟨some audioFile, userId⟩).1 =
      .ok { status := "cached",
            cacheId := env.computeFileHash audioFile.content,
            outputs := (normalizeStems (some cachedStem.stems)
                          (some cachedStem.outputUrls)).map (fun stem => stem.url),
            stems := normalizeStems (some cachedStem.stems)
                          (some cachedStem.outputUrls) } := by
  simp [runInference, hit, cachedStemsOf_eq_normalizeStems]

/-- Witness for C1: `demoFile` is cached in `hitStore`; a reachable and an
unreachable backend give the same outcome. -/
theorem runInference_cache_hit_witness :
    findOne hitStore.processedStems (demoEnv.computeFileHash demoFile.content)
      = some legacyEntry ∧
    (runInference demoEnv filesBackend hitStore ⟨some demoFile, "u1"⟩
      = runInference demoEnv downBackend hitStore ⟨some demoFile, "u1"⟩ ∧
    (runInference demoEnv filesBackend hitStore ⟨some demoFile, "u1"⟩).2.processedStems
      = hitStore.processedStems ∧
    (runInference demoEnv filesBackend hitStore ⟨some demoFile, "u1"⟩).1 =
      .ok { status := "cached",
            cacheId := demoEnv.computeFileHash demoFile.content,
            outputs := (normalizeStems (some legacyEntry.stems)
                          (some legacyEntry.outputUrls)).map (fun stem => stem.url),
            stems := normalizeStems (some legacyEntry.stems)
                          (some legacyEntry.outputUrls) }) :=
  ⟨by decide,
   runInference_cache_hit demoEnv filesBackend downBackend hitStore "u1" demoFile
     legacyEntry (by decide)⟩

/-- C7. Every document `runInference` writes has `outputUrls` equal to the
locations of its `stems`, in order: every cache document and every history
record of the resulting store is either an old one or in sync; on a miss
answered by the backend the upserted cache entry holds the normalised stems and
their locations; and for an existing user every 200 answer comes with one
appended history record holding the answered stems and their locations. -/
theorem written_records_in_sync (env : Env) (backend : Backend) (st : Store)
    (req : InferenceRequest) :
    (∀ e ∈ (runInference env backend st req).2.processedStems,
      e ∈ st.processedStems ∨ e.outputUrls = e.stems.map (fun stem => stem.url)) ∧
    (∀ u ∈ (runInference env backend st req).2.users,
      u ∈ st.users ∨ ∃ u0 ∈ st.users, ∃ r stems,
        u = { u0 with savedOutputs := u0.savedOutputs ++ [r] } ∧
        r.stems = some stems ∧ r.outputUrls = some (stems.map (fun stem => stem.url))) ∧
    (∀ audioFile data, req.file = some audioFile →
      findOne st.processedStems (env.computeFileHash audioFile.content) = none →
      backend ⟨audioFile.content, audioFile.originalname,
               env.computeFileHash audioFile.content⟩ = .ok data →
      ∃ e, findOne (runInference env backend st req).2.processedStems
              (strOr data.cache_id (env.computeFileHash audioFile.content)) = some e ∧
        e.stems = normalizeStems data.stems data.files ∧
        e.outputUrls = e.stems.map (fun stem => stem.url)) ∧
    (∀ user body, findById st.users req.userId = some user →
      (runInference env backend st req).1 = .ok body →
      ∃ r, findById (runInference env backend st req).2.users req.userId
              = some { user with savedOutputs := user.savedOutputs ++ [r] } ∧
        r.cacheId = body.cacheId ∧ r.stems = some body.stems ∧
        r.outputUrls = some (body.stems.map (fun stem => stem.url))) := by
  have hrec : ∀ (n c : String) (stems : List Stem),
      (newSavedOutput env n c stems).stems = some stems ∧
      (newSavedOutput env n c stems).outputUrls
        = some (stems.map (fun stem => stem.url)) ∧
      (newSavedOutput env n c stems).cacheId = c := fun _ _ _ => ⟨rfl, rfl, rfl⟩
  cases hfile : req.file with
  | none =>
    refine ⟨?_, ?_, ?_, ?_⟩
    · intro e he; left; simpa [runInference, hfile] using he
    · intro u hu; left; simpa [runInference, hfile] using hu
    · intro audioFile data h; cases h
    · intro user body _ h; simp [runInference, hfile] at h
  | some audioFile =>
    cases hfind : findOne st.processedStems (env.computeFileHash audioFile.content) with
    | some cachedStem =>
      refine ⟨?_, ?_, ?_, ?_⟩
      · intro e he; left; simpa [runInference, hfile, hfind] using he
      · intro u hu
        simp only [runInference, hfile, hfind] at hu
        rcases mem_persistUserOutput hu with h | ⟨u0, hu0, h⟩
        · exact Or.inl h
        · exact Or.inr ⟨u0, hu0, _, _, h, (hrec _ _ _).1, (hrec _ _ _).2.1⟩
      · intro f data hf hmiss _
        cases hf
        rw [hfind] at hmiss; cases hmiss
      · intro user body huser hbody
        simp only [runInference, hfile, hfind] at hbody ⊢
        cases hbody
        exact ⟨_, findById_persistUserOutput _ _ _ _ huser, rfl, rfl, rfl⟩
    | none =>
      cases hb : backend ⟨audioFile.content, audioFile.originalname,
                          env.computeFileHash audioFile.content⟩ with
      | error message =>
        refine ⟨?_, ?_, ?_, ?_⟩
        · intro e he; left; simpa [runInference, hfile, hfind, hb] using he
        · intro u hu; left; simpa [runInference, hfile, hfind, hb] using hu
        · intro f data hf _ hok
          cases hf
          rw [hb] at hok; cases hok
        · intro user body _ h; simp [runInference, hfile, hfind, hb] at h
      | ok data =>
        refine ⟨?_, ?_, ?_, ?_⟩
        · intro e he
          simp only [runInference, hfile, hfind, hb] at he
          rcases mem_findOneAndUpdate he with h | ⟨_, h1, h2⟩
          · exact Or.inl h
          · right; rw [h1, h2]
        · intro u hu
          simp only [runInference, hfile, hfind, hb] at hu
          rcases mem_persistUserOutput hu with h | ⟨u0, hu0, h⟩
          · exact Or.inl h
          · exact Or.inr ⟨u0, hu0, _, _, h, (hrec _ _ _).1, (hrec _ _ _).2.1⟩
        · intro f data2 hf _ hok
          cases hf
          rw [hb] at hok; cases hok
          simp only [runInference, hfile, hfind, hb]
          obtain ⟨e, he, _, _, h1, h2⟩ := findOne_findOneAndUpdate env st.processedStems
            (strOr data.cache_id (env.computeFileHash audioFile.content))
            audioFile.originalname
            ((normalizeStems data.stems data.files).map (fun stem => stem.url))
            (normalizeStems data.stems data.files)
          exact ⟨e, he, h2, by rw [h1, h2]⟩
        · intro user body huser hbody
          simp only [runInference, hfile, hfind, hb] at hbody ⊢
          cases hbody
          exact ⟨_, findById_persistUserOutput _ _ _ _ huser, rfl, rfl, rfl⟩

/-- Witness for C7: a miss for user `u1` answered by the backend with two bare
locations; both written documents carry the locations of their stems. -/
theorem written_records_in_sync_witness :
    (∃ e, findOne (runInference demoEnv filesBackend missStore demoRequest).2.processedStems
              (strOr none (demoEnv.computeFileHash demoFile.content)) = some e ∧
        e.stems = normalizeStems none (some ["x", "y"]) ∧
        e.outputUrls = e.stems.map (fun stem => stem.url)) ∧
    (∃ r, findById (runInference demoEnv filesBackend missStore demoRequest).2.users "u1"
              = some { id := "u1", savedOutputs := [] ++ [r] } ∧
        r.cacheId = "h13000" ∧
        r.stems = some [⟨"Stem 1", "x"⟩, ⟨"Stem 2", "y"⟩] ∧
        r.outputUrls = some (List.map (fun stem => stem.url)
          ([⟨"Stem 1", "x"⟩, ⟨"Stem 2", "y"⟩] : List Stem))) :=
  ⟨(written_records_in_sync demoEnv filesBackend missStore demoRequest).2.2.1
      demoFile _ rfl (by decide) rfl,
   (written_records_in_sync demoEnv filesBackend missStore demoRequest).2.2.2
      ⟨"u1", []⟩ ⟨"success", "h13000", ["x", "y"], [⟨"Stem 1", "x"⟩, ⟨"Stem 2", "y"⟩]⟩
      (by decide) (by decide)⟩

/-- C9. When the submitter id does not resolve to a user (and the backend
answers on a miss), `persistUserOutput` leaves every history as it was,
`runInference` still answers 200, the answer is the one any other submitter
and any other user collection would get on the same cache, and on a miss the
cache entry is still upserted. -/
theorem missing_submitter_not_fatal (env : Env) (backend : Backend) (st : Store)
    (req : InferenceRequest) (audioFile : UploadedFile)
    (hfile : req.file = some audioFile)
    (hmissing : findById st.users req.userId = none)
    (hbackend : findOne st.processedStems (env.computeFileHash audioFile.content) = none →
      ∃ data, backend ⟨audioFile.content, audioFile.originalname,
                       env.computeFileHash audioFile.content⟩ = .ok data) :
    (∀ inputName cacheId stems,
      persistUserOutput env st.users req.userId inputName cacheId stems = st.users) ∧
    (runInference env backend st req).2.users = st.users ∧
    (∃ body, (runInference env backend st req).1 = .ok body) ∧
    (∀ (users2 : List User) (userId2 : String),
      (runInference env backend { st with users := users2 }
          { req with userId := userId2 }).1 = (runInference env backend st req).1) ∧
    (∀ data, findOne st.processedStems (env.computeFileHash audioFile.content) = none →
      backend ⟨audioFile.content, audioFile.originalname,
               env.computeFileHash audioFile.content⟩ = .ok data →
      (runInference env backend st req).2.processedStems =
        findOneAndUpdate env st.processedStems
          (strOr data.cache_id (env.computeFileHash audioFile.content))
          audioFile.originalname
          ((normalizeStems data.stems data.files).map (fun stem => stem.url))
          (normalizeStems data.stems data.files)) := by
  refine ⟨fun _ _ _ => persistUserOutput_of_missing hmissing, ?_, ?_, ?_, ?_⟩
  · cases hfind : findOne st.processedStems (env.computeFileHash audioFile.content) with
    | some cachedStem =>
      simp [runInference, hfile, hfind, persistUserOutput_of_missing hmissing]
    | none =>
      obtain ⟨data, hb⟩ := hbackend hfind
      simp [runInference, hfile, hfind, hb, persistUserOutput_of_missing hmissing]
  · cases hfind : findOne st.processedStems (env.computeFileHash audioFile.content) with
    | some cachedStem => simp [runInference, hfile, hfind]
    | none =>
      obtain ⟨data, hb⟩ := hbackend hfind
      simp [runInference, hfile, hfind, hb]
  · intro users2 userId2
    cases hfind : findOne st.processedStems (env.computeFileHash audioFile.content) with
    | some cachedStem => simp [runInference, hfile, hfind]
    | none =>
      obtain ⟨data, hb⟩ := hbackend hfind
      simp [runInference, hfile, hfind, hb]
  · intro data hfind hb
    simp [runInference, hfile, hfind, hb]

/-- Witness for C9: nobody is registered in the empty store, the upload misses
the cache and the backend answers. -/
theorem missing_submitter_not_fatal_witness :
    (∀ inputName cacheId stems,
      persistUserOutput demoEnv Store.empty.users demoRequest.userId inputName cacheId stems
        = Store.empty.users) ∧
    (runInference demoEnv filesBackend Store.empty demoRequest).2.users
      = Store.empty.users ∧
    (∃ body, (runInference demoEnv filesBackend Store.empty demoRequest).1 = .ok body) ∧
    (∀ (users2 : List User) (userId2 : String),
      (runInference demoEnv filesBackend { Store.empty with users := users2 }
          { demoRequest with userId := userId2 }).1
        = (runInference demoEnv filesBackend Store.empty demoRequest).1) ∧
    (∀ data, findOne Store.empty.processedStems
        (demoEnv.computeFileHash demoFile.content) = none →
      filesBackend ⟨demoFile.content, demoFile.originalname,
               demoEnv.computeFileHash demoFile.content⟩ = .ok data →
      (runInference demoEnv filesBackend Store.empty demoRequest).2.processedStems =
        findOneAndUpdate demoEnv Store.empty.processedStems
          (strOr data.cache_id (demoEnv.computeFileHash demoFile.content))
          demoFile.originalname
          ((normalizeStems data.stems data.files).map (fun stem => stem.url))
          (normalizeStems data.stems data.files)) :=
  missing_submitter_not_fatal demoEnv filesBackend Store.empty demoRequest demoFile rfl
    (by decide) (fun _ => ⟨_, rfl⟩)

/-- The store after the run of the C9 witness: the cache entry was written,
no history was. -/
theorem missing_submitter_run_eval :
    runInference demoEnv filesBackend Store.empty demoRequest =
      (.ok { status := "success", cacheId := "h13000", outputs := ["x", "y"],
             stems := [⟨"Stem 1", "x"⟩, ⟨"Stem 2", "y"⟩] },
       { processedStems := [{ cacheId := "h13000", inputName := "song.wav",
                              stems := [⟨"Stem 1", "x"⟩, ⟨"Stem 2", "y"⟩],
                              outputUrls := ["x", "y"], createdAt := 100 }],
         users := [] }) := by
  decide

/-- C10 as stated fails: a backend that answers with status `"queued"` makes
`runInference` answer 200 with status `"queued"`. -/
theorem ok_status_counterexample :
    okStatus (runInference demoEnv queuedBackend missStore demoRequest).1 = some "queued" ∧
    ¬ (okStatus (runInference demoEnv queuedBackend missStore demoRequest).1 = some "cached" ∨
       okStatus (runInference demoEnv queuedBackend missStore demoRequest).1
         = some "success") := by
  decide

/-- C10, amended. Every 200 answer of `runInference` either comes from a cache
hit and has status `"cached"`, or comes from a miss the backend answered, and
then its status is the backend's own status when that is present and non-empty
and `"success"` otherwise. -/
theorem ok_status_values (env : Env) (backend : Backend) (st : Store)
    (req : InferenceRequest) (body : InferenceBody)
    (h : (runInference env backend st req).1 = .ok body) :
    (∃ audioFile cachedStem, req.file = some audioFile ∧
      findOne st.processedStems (env.computeFileHash audioFile.content)
        = some cachedStem ∧
      body.status = "cached") ∨
    ∃ audioFile data, req.file = some audioFile ∧
      findOne st.processedStems (env.computeFileHash audioFile.content) = none ∧
      backend ⟨audioFile.content, audioFile.originalname,
               env.computeFileHash audioFile.content⟩ = .ok data ∧
      ((∃ word, data.status = some word ∧ word ≠ "" ∧ body.status = word) ∨
       ((data.status = none ∨ data.status = some "") ∧ body.status = "success")) := by
  cases hfile : req.file with
  | none => simp [runInference, hfile] at h
  | some audioFile =>
    cases hfind : findOne st.processedStems (env.computeFileHash audioFile.content) with
    | some cachedStem =>
      simp only [runInference, hfile, hfind] at h
      cases h
      exact Or.inl ⟨audioFile, cachedStem, rfl, hfind, rfl⟩
    | none =>
      cases hb : backend ⟨audioFile.content, audioFile.originalname,
                          env.computeFileHash audioFile.content⟩ with
      | error message => simp [runInference, hfile, hfind, hb] at h
      | ok data =>
        simp only [runInference, hfile, hfind, hb] at h
        cases h
        refine Or.inr ⟨audioFile, data, rfl, hfind, hb, ?_⟩
        cases hs : data.status with
        | none => exact Or.inr ⟨Or.inl rfl, by simp [strOr]⟩
        | some word =>
          by_cases hw : word = ""
          · subst hw
            exact Or.inr ⟨Or.inr rfl, by simp [strOr]⟩
          · exact Or.inl ⟨word, rfl, hw, by simp [strOr, hw]⟩

/-- Witness for the amended C10 on the run with the `"queued"` backend. -/
theorem ok_status_values_witness :
    (∃ audioFile cachedStem, demoRequest.file = some audioFile ∧
      findOne missStore.processedStems (demoEnv.computeFileHash audioFile.content)
        = some cachedStem ∧
      "queued" = "cached") ∨
    ∃ audioFile data, demoRequest.file = some audioFile ∧
      findOne missStore.processedStems (demoEnv.computeFileHash audioFile.content) = none ∧
      queuedBackend ⟨audioFile.content, audioFile.originalname,
               demoEnv.computeFileHash audioFile.content⟩ = .ok data ∧
      ((∃ word, data.status = some word ∧ word ≠ "" ∧ "queued" = word) ∨
       ((data.status = none ∨ data.status = some "") ∧ "queued" = "success")) :=
  ok_status_values demoEnv queuedBackend missStore demoRequest
    ⟨"queued", "h13000", ["x"], [⟨"Stem 1", "x"⟩]⟩ (by decide)

/-- C8. The referential property holds in the empty store, every submission
keeps every `cacheId` of the cache collection, and in every store reachable by
submissions from a store with the property, every history record of every user
names the `cacheId` of an existing cache document. -/
theorem references_invariant :
    HistoryReferencesCache Store.empty ∧
    (∀ st st2, SubmissionStep st st2 → ∀ e ∈ st.processedStems,
      ∃ e2 ∈ st2.processedStems, e2.cacheId = e.cacheId) ∧
    (∀ st st2, HistoryReferencesCache st → Reachable st st2 →
      HistoryReferencesCache st2) := by
  refine ⟨?_, ?_, ?_⟩
  · intro u hu
    simp [Store.empty] at hu
  · rintro st st2 ⟨env, backend, req, rfl⟩ e he
    exact runInference_keeps_cacheIds env backend st req ⟨e, he, rfl⟩
  · intro st st2 hinv hreach
    induction hreach with
    | refl => exact hinv
    | tail _ hstep ih =>
      obtain ⟨env, backend, req, rfl⟩ := hstep
      exact runInference_preserves_references env backend _ req ih

/-- Witness for C8: two submissions of `demoFile` by `u1` starting from
`missStore`, the first a miss and the second a hit. -/
theorem references_invariant_witness :
    HistoryReferencesCache (resubmit demoEnv 200 filesBackend downBackend missStore
      demoRequest).2 :=
  references_invariant.2.2 missStore _
    (by
      intro u hu r hr
      have hu2 : u = ⟨"u1", []⟩ := by simpa [missStore] using hu
      subst hu2
      simp at hr)
    (Relation.ReflTransGen.tail
      (Relation.ReflTransGen.single ⟨demoEnv, filesBackend, demoRequest, rfl⟩)
      ⟨{ demoEnv with now := 200 }, downBackend, demoRequest, rfl⟩)

/-- C2 as stated fails: `u1` exists, `demoFile` is not cached and the backend
answers, but it files the result under its own id `"job-42"`; the second
submission of the same bytes misses again, is answered `"success"`, and no
cache entry exists under the fingerprint. -/
theorem resubmission_counterexample :
    findById missStore.users demoRequest.userId = some ⟨"u1", []⟩ ∧
    findOne missStore.processedStems (demoEnv.computeFileHash demoFile.content) = none ∧
    renamingBackend ⟨demoFile.content, demoFile.originalname,
        demoEnv.computeFileHash demoFile.content⟩
      = .ok { cache_id := some "job-42", status := none, files := some ["x"],
              stems := none } ∧
    okStatus (resubmit demoEnv 200 renamingBackend renamingBackend missStore
      demoRequest).1 = some "success" ∧
    ¬ (okStatus (resubmit demoEnv 200 renamingBackend renamingBackend missStore
      demoRequest).1 = some "cached") ∧
    ¬ ((cacheEntriesFor (resubmit demoEnv 200 renamingBackend renamingBackend missStore
      demoRequest).2.processedStems (demoEnv.computeFileHash demoFile.content)).length
        = 1) :=
  ⟨by decide, by decide, rfl, by decide, by decide, by decide⟩

/-- C2, amended. For an existing submitter, a store with no cache entry for the
fingerprint of the artifact and a backend that answers with a `cache_id` that
is absent, empty or equal to that fingerprint, two submissions in a row of the
same content by that submitter append exactly two history records to that
submitter (every other user is untouched), leave exactly one cache entry under
the fingerprint, and the second answer has status `"cached"`. -/
theorem resubmission_idempotent (env : Env) (later : Nat) (b1 b2 : Backend) (st : Store)
    (userId : String) (audioFile : UploadedFile) (user : User) (data : BackendData)
    (huser : findById st.users userId = some user)
    (hmiss : findOne st.processedStems (env.computeFileHash audioFile.content) = none)
    (hback : b1 ⟨audioFile.content, audioFile.originalname,
                 env.computeFileHash audioFile.content⟩ = .ok data)
    (hid : data.cache_id = none ∨ data.cache_id = some "" ∨
           data.cache_id = some (env.computeFileHash audioFile.content)) :
    (∃ r1 r2, findById (resubmit env later b1 b2 st ⟨some audioFile, userId⟩).2.users userId
        = some { user with savedOutputs := user.savedOutputs ++ [r1, r2] } ∧
      r1.cacheId = env.computeFileHash audioFile.content ∧
      r2.cacheId = env.computeFileHash audioFile.content) ∧
    (∀ other, other ≠ userId →
      findById (resubmit env later b1 b2 st ⟨some audioFile, userId⟩).2.users other
        = findById st.users other) ∧
    (cacheEntriesFor (resubmit env later b1 b2 st ⟨some audioFile, userId⟩).2.processedStems
      (env.computeFileHash audioFile.content)).length = 1 ∧
    okStatus (resubmit env later b1 b2 st ⟨some audioFile, userId⟩).1 = some "cached" := by
  have hres := strOr_eq_default hid
  have hnone : ∀ e ∈ st.processedStems, e.cacheId ≠ env.computeFileHash audioFile.content :=
    findOne_eq_none_iff.mp hmiss
  have hfirst : runInference env b1 st ⟨some audioFile, userId⟩ =
      (.ok { status := strOr data.status "success",
             cacheId := env.computeFileHash audioFile.content,
             outputs := (normalizeStems data.stems data.files).map (fun stem => stem.url),
             stems := normalizeStems data.stems data.files },
       { processedStems := st.processedStems ++
           [{ cacheId := env.computeFileHash audioFile.content,
              inputName := audioFile.originalname,
              stems := normalizeStems data.stems data.files,
              outputUrls := (normalizeStems data.stems data.files).map
                (fun stem => stem.url),
              createdAt := env.now }],
         users := persistUserOutput env st.users userId audioFile.originalname
           (env.computeFileHash audioFile.content)
           (normalizeStems data.stems data.files) }) := by
    simp [runInference, hmiss, hback, hres, findOneAndUpdate]
  have hfind2 : findOne (st.processedStems ++
      [{ cacheId := env.computeFileHash audioFile.content,
         inputName := audioFile.originalname,
         stems := normalizeStems data.stems data.files,
         outputUrls := (normalizeStems data.stems data.files).map (fun stem => stem.url),
         createdAt := env.now }]) (env.computeFileHash audioFile.content)
      = some { cacheId := env.computeFileHash audioFile.content,
               inputName := audioFile.originalname,
               stems := normalizeStems data.stems data.files,
               outputUrls := (normalizeStems data.stems data.files).map
                 (fun stem => stem.url),
               createdAt := env.now } := by
    have hn : List.find? (fun d => d.cacheId == env.computeFileHash audioFile.content)
        st.processedStems = none := hmiss
    simp [findOne, List.find?_append, hn]
  have hsecond : resubmit env later b1 b2 st ⟨some audioFile, userId⟩ =
      (.ok { status := "cached",
             cacheId := env.computeFileHash audioFile.content,
             outputs := (cachedStemsOf
               { cacheId := env.computeFileHash audioFile.content,
                 inputName := audioFile.originalname,
                 stems := normalizeStems data.stems data.files,
                 outputUrls := (normalizeStems data.stems data.files).map
                   (fun stem => stem.url),
                 createdAt := env.now }).map (fun stem => stem.url),
             stems := cachedStemsOf
               { cacheId := env.computeFileHash audioFile.content,
                 inputName := audioFile.originalname,
                 stems := normalizeStems data.stems data.files,
                 outputUrls := (normalizeStems data.stems data.files).map
                   (fun stem => stem.url),
                 createdAt := env.now } },
       { processedStems := st.processedStems ++
           [{ cacheId := env.computeFileHash audioFile.content,
              inputName := audioFile.originalname,
              stems := normalizeStems data.stems data.files,
              outputUrls := (normalizeStems data.stems data.files).map
                (fun stem => stem.url),
              createdAt := env.now }],
         users := persistUserOutput { env with now := later }
           (persistUserOutput env st.users userId audioFile.originalname
             (env.computeFileHash audioFile.content)
             (normalizeStems data.stems data.files))
           userId audioFile.originalname (env.computeFileHash audioFile.content)
           (cachedStemsOf
             { cacheId := env.computeFileHash audioFile.content,
               inputName := audioFile.originalname,
               stems := normalizeStems data.stems data.files,
               outputUrls := (normalizeStems data.stems data.files).map
                 (fun stem => stem.url),
               createdAt := env.now }) }) := by
    unfold resubmit
    rw [hfirst]
    simp only [runInference, hfind2]
  rw [hsecond]
  refine ⟨?_, ?_, ?_, rfl⟩
  · refine ⟨newSavedOutput env audioFile.originalname
        (env.computeFileHash audioFile.content) (normalizeStems data.stems data.files),
      newSavedOutput { env with now := later } audioFile.originalname
        (env.computeFileHash audioFile.content)
        (cachedStemsOf
             { cacheId := env.computeFileHash audioFile.content,
               inputName := audioFile.originalname,
               stems := normalizeStems data.stems data.files,
               outputUrls := (normalizeStems data.stems data.files).map
                 (fun stem => stem.url),
               createdAt := env.now }), ?_, rfl, rfl⟩
    have h1 := findById_persistUserOutput env audioFile.originalname
      (env.computeFileHash audioFile.content)
      (normalizeStems data.stems data.files) huser
    have h2 := findById_persistUserOutput { env with now := later }
      audioFile.originalname (env.computeFileHash audioFile.content)
      (cachedStemsOf
             { cacheId := env.computeFileHash audioFile.content,
               inputName := audioFile.originalname,
               stems := normalizeStems data.stems data.files,
               outputUrls := (normalizeStems data.stems data.files).map
                 (fun stem => stem.url),
               createdAt := env.now }) h1
    simpa using h2
  · intro other hne
    simp only
    rw [findById_persistUserOutput_other _ _ _ _ _ _ hne,
        findById_persistUserOutput_other _ _ _ _ _ _ hne]
  · have hf : List.filter (fun e => e.cacheId == env.computeFileHash audioFile.content)
        st.processedStems = [] := by
      rw [List.filter_eq_nil_iff]
      intro e he
      simpa using hnone e he
    simp [cacheEntriesFor, List.filter_append, hf]

/-- Witness for the amended C2: `u1` submits `demoFile` twice to `missStore`;
the backend answers the first time and is unreachable the second time. -/
theorem resubmission_idempotent_witness :
    (∃ r1 r2, findById (resubmit demoEnv 200 filesBackend downBackend missStore
          ⟨some demoFile, "u1"⟩).2.users "u1"
        = some { (⟨"u1", []⟩ : User) with savedOutputs := [] ++ [r1, r2] } ∧
      r1.cacheId = demoEnv.computeFileHash demoFile.content ∧
      r2.cacheId = demoEnv.computeFileHash demoFile.content) ∧
    (∀ other, other ≠ "u1" →
      findById (resubmit demoEnv 200 filesBackend downBackend missStore
          ⟨some demoFile, "u1"⟩).2.users other
        = findById missStore.users other) ∧
    (cacheEntriesFor (resubmit demoEnv 200 filesBackend downBackend missStore
        ⟨some demoFile, "u1"⟩).2.processedStems
      (demoEnv.computeFileHash demoFile.content)).length = 1 ∧
    okStatus (resubmit demoEnv 200 filesBackend downBackend missStore
        ⟨some demoFile, "u1"⟩).1 = some "cached" :=
  resubmission_idempotent demoEnv 200 filesBackend downBackend missStore "u1" demoFile
    ⟨"u1", []⟩ ⟨none, none, some ["x", "y"], none⟩ (by decide) (by decide) rfl (Or.inl rfl)

/-- C4 as stated fails: user `u1` has 25 records with distinct times, the page
is 1 and the limit is the numeral `1` followed by 400 zeros. `parseInt` reads the
limit as `Infinity`, `skip = (1 - 1) * Infinity` is `NaN`, and `slice(NaN, NaN)`
serves nothing, where the claim promises the records at positions 1 to 25. -/
theorem getUserResults_page_counterexample :
    findById (historyStore 25).users "u1"
      = some ⟨"u1", (List.range 25).map (fun i => demoRecord (i + 1))⟩ ∧
    (((List.range 25).map (fun i => demoRecord (i + 1))).map
      (fun o => o.createdAt)).Nodup ∧
    parseMathInt "1" = some 1 ∧
    parseMathInt hugeLimit = some (10 ^ 400) ∧
    (okBody (getUserResults demoEnv (historyStore 25) "u1" ⟨some hugeLimit, some "1"⟩)).map
        (fun b => (b.total, b.page, b.limit, b.results))
      = some (25, .fin 1, .inf false, []) ∧
    ¬ (([] : List ResultItem).length = min (1 * 10 ^ 400) 25 - (1 - 1) * 10 ^ 400) := by
  decide!

/-- C4, amended. For an existing user whose `n` history records (`n` below the
array length limit `2^32`) have pairwise distinct `createdAt`, and query values
that denote a page `p >= 1` and a limit `s >= 1`, where `p >= 2` or `s` is
below `2^1024 - 2^970` (so that page 1 never meets a limit read as `Infinity`):
there is exactly one arrangement `desc` of the history in strictly descending
`createdAt`; `getUserResults` answers 200 with `total = n`, the Number values
of `p` and `s` as page and limit (`p` and `s` themselves below `2^53`), and as
results the records of `desc` at the 0-based positions `(p-1)*s` up to but
excluding `min (p*s) n` (1-based: `(p-1)*s + 1` through `min (p*s) n`), each
served with its name, cache id, rendered time, locations and normalised stems.
The results have `min (p*s) n - (p-1)*s` elements, at most `s`, and none when
`(p-1)*s >= n`. The decimal renderings of `p` and `s` are such query values. -/
theorem getUserResults_page (env : Env) (st : Store) (userId : String) (user : User)
    (query : ResultsQuery) (p s : Nat)
    (huser : findById st.users userId = some user)
    (hdistinct : (user.savedOutputs.map (fun o => o.createdAt)).Nodup)
    (hlen : user.savedOutputs.length < 2 ^ 32)
    (hp : 1 ≤ p) (hs : 1 ≤ s)
    (hfinite : 2 ≤ p ∨ s < doubleOverflow)
    (hpage : parseMathInt (queryArg query.page) = some (p : Int))
    (hlimit : parseMathInt (queryArg query.limit) = some (s : Int)) :
    parseMathInt (queryArg (some (toString p))) = some (p : Int) ∧
    parseMathInt (queryArg (some (toString s))) = some (s : Int) ∧
    (p < 2 ^ 53 → toNumber (p : Int) = .fin (p : Int)) ∧
    (s < 2 ^ 53 → toNumber (s : Int) = .fin (s : Int)) ∧
    ∃ (desc : List SavedOutput) (results : List ResultItem),
      desc.Perm user.savedOutputs ∧
      desc.Pairwise (fun a b => b.createdAt < a.createdAt) ∧
      (∀ other : List SavedOutput, other.Perm user.savedOutputs →
        other.Pairwise (fun a b => b.createdAt < a.createdAt) → other = desc) ∧
      getUserResults env st userId query =
        .ok { total := user.savedOutputs.length, page := toNumber (p : Int),
              limit := toNumber (s : Int), results := results } ∧
      results = ((desc.drop ((p - 1) * s)).take s).map
        (fun o => { inputName := o.inputName, cacheId := o.cacheId,
                    createdAt := env.toLocaleString o.createdAt,
                    outputUrls := o.outputUrls,
                    stems := normalizeStems o.stems o.outputUrls }) ∧
      (∀ i, i < s → (results[i]?).map (fun r => (r.inputName, r.cacheId, r.outputUrls)) =
          (desc[(p - 1) * s + i]?).map (fun o => (o.inputName, o.cacheId, o.outputUrls))) ∧
      results.length = min (p * s) user.savedOutputs.length - (p - 1) * s ∧
      results.length ≤ s ∧
      (user.savedOutputs.length ≤ (p - 1) * s → results = []) := by
  have hperm := sortSavedOutputs_perm user.savedOutputs
  have hstrict := sortSavedOutputs_strict hdistinct
  have hlen2 : (sortSavedOutputs user.savedOutputs).length = user.savedOutputs.length :=
    hperm.length_eq
  have hP : parseInt (queryArg query.page) = toNumber (p : Int) := by
    simp only [parseInt, hpage]
  have hS : parseInt (queryArg query.limit) = toNumber (s : Int) := by
    simp only [parseInt, hlimit]
  have hP1 : numOr (toNumber (p : Int)) (.fin 1) = toNumber (p : Int) :=
    numOr_atLeast _ (toNumber_atLeast (by norm_num) hp)
  have hS1 : numOr (toNumber (s : Int)) (.fin 10) = toNumber (s : Int) :=
    numOr_atLeast _ (toNumber_atLeast (by norm_num) hs)
  have hitem : resultItemOf env = fun o =>
      { inputName := o.inputName, cacheId := o.cacheId,
        createdAt := env.toLocaleString o.createdAt,
        outputUrls := o.outputUrls,
        stems := normalizeStems o.stems o.outputUrls } := by
    funext o
    simp only [resultItemOf, servedStemsOf_eq_normalizeStems]
  refine ⟨parseMathInt_toString p, parseMathInt_toString s, toNumber_small, toNumber_small,
    sortSavedOutputs user.savedOutputs, _, hperm, hstrict, ?_, ?_, rfl, ?_, ?_, ?_, ?_⟩
  · intro other ho hso
    exact descending_unique ho hso hperm hstrict
  · simp only [getUserResults, huser, hP, hS, hP1, hS1]
    rw [page_window _ p s hp hs (by rw [hlen2]; exact hlen) hfinite, hitem]
  · intro i hi
    simp only [List.getElem?_map, List.getElem?_take, List.getElem?_drop, hi, if_true,
      Option.map_map]
    rfl
  · simp only [List.length_map, List.length_take, List.length_drop, hlen2]
    have hmul : p * s = (p - 1) * s + s := by
      have : p = (p - 1) + 1 := by omega
      conv_lhs => rw [this, Nat.add_mul, Nat.one_mul]
    omega
  · simp only [List.length_map, List.length_take]
    omega
  · intro hle
    rw [List.drop_of_length_le (by omega)]
    simp

/-- Witness for the amended C4: 25 records with distinct times, `page=2`,
`limit=10`. -/
theorem getUserResults_page_witness :
    parseMathInt (queryArg (some (toString 2))) = some ((2 : Nat) : Int) ∧
    parseMathInt (queryArg (some (toString 10))) = some ((10 : Nat) : Int) ∧
    (2 < 2 ^ 53 → toNumber ((2 : Nat) : Int) = .fin ((2 : Nat) : Int)) ∧
    (10 < 2 ^ 53 → toNumber ((10 : Nat) : Int) = .fin ((10 : Nat) : Int)) ∧
    ∃ (desc : List SavedOutput) (results : List ResultItem),
      desc.Perm ((List.range 25).map (fun i => demoRecord (i + 1))) ∧
      desc.Pairwise (fun a b => b.createdAt < a.createdAt) ∧
      (∀ other : List SavedOutput,
        other.Perm ((List.range 25).map (fun i => demoRecord (i + 1))) →
        other.Pairwise (fun a b => b.createdAt < a.createdAt) → other = desc) ∧
      getUserResults demoEnv (historyStore 25) "u1" ⟨some "10", some "2"⟩ =
        .ok { total := ((List.range 25).map (fun i => demoRecord (i + 1))).length,
              page := toNumber ((2 : Nat) : Int), limit := toNumber ((10 : Nat) : Int),
              results := results } ∧
      results = ((desc.drop ((2 - 1) * 10)).take 10).map
        (fun o => { inputName := o.inputName, cacheId := o.cacheId,
                    createdAt := demoEnv.toLocaleString o.createdAt,
                    outputUrls := o.outputUrls,
                    stems := normalizeStems o.stems o.outputUrls }) ∧
      (∀ i, i < 10 → (results[i]?).map (fun r => (r.inputName, r.cacheId, r.outputUrls)) =
          (desc[(2 - 1) * 10 + i]?).map (fun o => (o.inputName, o.cacheId, o.outputUrls))) ∧
      results.length
        = min (2 * 10) ((List.range 25).map (fun i => demoRecord (i + 1))).length
            - (2 - 1) * 10 ∧
      results.length ≤ 10 ∧
      (((List.range 25).map (fun i => demoRecord (i + 1))).length ≤ (2 - 1) * 10 →
        results = []) :=
  getUserResults_page demoEnv (historyStore 25) "u1"
    ⟨"u1", (List.range 25).map (fun i => demoRecord (i + 1))⟩ ⟨some "10", some "2"⟩ 2 10
    (by decide) (by decide) (by decide) (by decide) (by decide) (Or.inl (by decide))
    (by decide) (by decide)

/-- The pagination example evaluated: 25 records created at times 1 to 25,
`page=2` and `limit=10` give `total = 25` and the records created at times
15 down to 6, which are items 11 to 20 of the descending order. -/
theorem getUserResults_page_eval :
    (okBody (getUserResults demoEnv (historyStore 25) "u1" ⟨some "10", some "2"⟩)).map
        (fun b => (b.total, b.page, b.limit, b.results.map (fun r => r.createdAt))) =
      some (25, .fin 2, .fin 10,
            ["15", "14", "13", "12", "11", "10", "9", "8", "7", "6"]) := by
  decide

/-- C5 at the input of its example: `page = "abc"`, `limit = "-5"` on a history
of 25 records. `parseInt("-5")` is `-5`, which is truthy, so the limit used and
reported is `-5`, not `10`; `slice(0, -5)` then serves every record but the
oldest five (20 records, times 25 down to 6) instead of the first 10. -/
theorem getUserResults_negative_limit_eval :
    parseInt "abc" = .nan ∧ parseInt "-5" = .fin (-5) ∧
    (okBody (getUserResults demoEnv (historyStore 25) "u1" ⟨some "-5", some "abc"⟩)).map
        (fun b => (b.total, b.page, b.limit, b.results.map (fun r => r.createdAt))) =
      some (25, .fin 1, .fin (-5),
            ["25", "24", "23", "22", "21", "20", "19", "18", "17", "16",
             "15", "14", "13", "12", "11", "10", "9", "8", "7", "6"]) := by
  decide

/-- The same slip on the page: `page = "-2"` with `limit = "10"` is reported as
page `-2`, and `slice(-30, -20)` serves the first five records of a history
of 25. -/
theorem getUserResults_negative_page_eval :
    (okBody (getUserResults demoEnv (historyStore 25) "u1" ⟨some "10", some "-2"⟩)).map
        (fun b => (b.total, b.page, b.limit, b.results.map (fun r => r.createdAt))) =
      some (25, .fin (-2), .fin 10, ["25", "24", "23", "22", "21"]) := by
  decide

/-- The part of the coercion that the code does perform: a query value that
does not parse, or parses to `0`, or is missing, is replaced by the default. -/
theorem getUserResults_defaults (env : Env) (st : Store) (userId : String) (user : User)
    (query : ResultsQuery)
    (huser : findById st.users userId = some user)
    (hpage : parseInt (queryArg query.page) = .nan ∨
             parseInt (queryArg query.page) = .fin 0)
    (hlimit : parseInt (queryArg query.limit) = .nan ∨
              parseInt (queryArg query.limit) = .fin 0) :
    getUserResults env st userId query =
      .ok { total := user.savedOutputs.length, page := .fin 1, limit := .fin 10,
            results := ((sortSavedOutputs user.savedOutputs).take 10).map
              (resultItemOf env) } := by
  have hl : numOr (parseInt (queryArg query.limit)) (.fin 10) = .fin 10 := by
    rcases hlimit with h | h <;> simp [h, numOr]
  have hpg : numOr (parseInt (queryArg query.page)) (.fin 1) = .fin 1 := by
    rcases hpage with h | h <;> simp [h, numOr]
  have hskip : ((JSNum.fin 1).sub (.fin 1)).mul (.fin 10) = .fin ((0 : Nat) : Int) := by
    decide
  have hstop : (JSNum.fin ((0 : Nat) : Int)).add (.fin 10) = .fin ((10 : Nat) : Int) := by
    decide
  have hwin := drop_take_window (sortSavedOutputs user.savedOutputs) 0 10
  simp only [getUserResults, huser, hl, hpg, hskip, hstop, jsSlice, clampIndex_natCast]
  rw [Nat.zero_add] at hwin
  rw [hwin]
  rfl

end AudioPrism
